import Mathlib

/-!
Verification of the snapshot-report tool (`snap.py`): grouping of the
snapshot inventory by policy or source path, per-group capacity
calculation, and report-row construction, shallowly embedded in Lean.

Remote collaborators (path resolution, capacity queries) are modelled as
explicit oracle functions returning `ApiResult`, mirroring a call that
either returns a payload or raises an exception carrying a message
string.  Python dictionaries with insertion order are modelled as
association lists.  The float arithmetic of `format_bytes` is modelled
exactly: the first `size_in_bytes /= 1024` is an int/int true division,
whose correctly rounded (nearest, ties-to-even) binary64 result is kept
as an exact fraction; every later division of that float by 1024 only
decrements the exponent (the values stay far above the subnormal range)
and is therefore exact, as is the comparison against 1024 and the
one-decimal rendering of the final value.
-/

namespace QumuloSnap

/-! ## String primitives mirroring the Python operations used -/

/-- Lexicographic strict comparison of char lists by code point: the
order Python uses to compare strings. -/
def lexLtB : List Char → List Char → Bool
  | [], [] => false
  | [], _ :: _ => true
  | _ :: _, [] => false
  | a :: as, b :: bs =>
    if a.toNat < b.toNat then true
    else if b.toNat < a.toNat then false
    else lexLtB as bs

/-- Python `a < b` on strings. -/
def strLtB (a b : String) : Bool := lexLtB a.toList b.toList

/-- Python `min(iterable, default=dflt)` over strings: the running
minimum is replaced only when a later element is strictly smaller. -/
def pyMinList (l : List String) (dflt : String) : String :=
  match l with
  | [] => dflt
  | x :: xs => xs.foldl (fun best e => if strLtB e best then e else best) x

/-- Python `s.split("T")[0]`: the part of the string before the first
`'T'` (the whole string when no `'T'` occurs). -/
def beforeT (s : String) : String :=
  String.mk (s.toList.takeWhile (fun c => !(c == 'T')))

/-- Whether the first list opens the second one. -/
def isPre : List Char → List Char → Bool
  | [], _ => true
  | _ :: _, [] => false
  | a :: as, b :: bs => a == b && isPre as bs

/-- Whether the needle occurs contiguously inside the haystack. -/
def hasSub : List Char → List Char → Bool
  | needle, [] => isPre needle []
  | needle, c :: rest => isPre needle (c :: rest) || hasSub needle rest

/-- Python `needle in hay` on strings: substring containment. -/
def containsSub (needle hay : String) : Bool := hasSub needle.toList hay.toList

/-- Python `", ".join(l)`. -/
def joinComma : List String → String
  | [] => ""
  | [s] => s
  | s :: rest => s ++ ", " ++ joinComma rest

/-! ## Data model (`snap.py` dataclasses and raw API records) -/

/-- Result of a remote call: the payload, or the raised exception's
message string. -/
inductive ApiResult (α : Type) where
  | ok (val : α)
  | err (msg : String)
deriving DecidableEq, Repr

/-- The two grouping keys `group_snapshots` is called with. -/
inductive GroupBy where
  | policy_id
  | source_file_id
deriving DecidableEq, Repr

/-- A raw snapshot entry as returned by `list_snapshots`: `policy_id`
may be absent or null, `expiration` may be absent (`.get` then yields
the default). -/
structure RawSnapshot where
  id : String
  policy_id : Option String
  source_file_id : Option String
  name : String
  expiration : Option String
deriving DecidableEq, Repr

/-- Dataclass `SnapInfo`. -/
structure SnapInfo where
  id : String
  name : String
  expiration : String
  policy : Option String
  path_id : Option String
  path_str : String
  size : Nat
deriving DecidableEq, Repr

/-- Dataclass `SnapPolicyInfo`. -/
structure SnapPolicyInfo where
  policy_id : Option String
  policy_name : String
  path_id : Option String
  path_str : String
  snapshots : List SnapInfo
  size : Nat
deriving DecidableEq, Repr

/-- The path-resolution collaborator `rc.fs.get_file_attr(path_id)["path"]`. -/
abbrev PathOracle := Option String → ApiResult String

/-- The per-snapshot capacity collaborator
`rc.snapshot.capacity_used_by_snapshot(id)["capacity_used_bytes"]`. -/
abbrev SnapCapOracle := String → ApiResult Nat

/-- The bulk capacity collaborator
`rc.snapshot.calculate_used_capacity(ids)["bytes"]`. -/
abbrev BulkCapOracle := List String → ApiResult Nat

/-! ## `Snapshot._get_file_path` -/

/-- `_get_file_path`: resolve a path id; a fault whose message mentions
`fs_no_such_inode_error` yields the sentinel `"Path not found"`, any
other fault yields `"Unknown error"`. -/
def get_file_path (fa : PathOracle) (path_id : Option String) : String :=
  match fa path_id with
  | .ok p => p
  | .err e =>
    if containsSub "fs_no_such_inode_error" e then "Path not found"
    else "Unknown error"

/-! ## `Snapshot.group_snapshots` -/

/-- The raw field `snapshot.get(group_by)` selected by the grouping key. -/
def keyField (gb : GroupBy) (s : RawSnapshot) : Option String :=
  match gb with
  | .policy_id => s.policy_id
  | .source_file_id => s.source_file_id

/-- `snapshot.get(group_by) or "on_demand"`: Python `or` falls through
on `None` and on the empty string (both falsy). -/
def codeGroupKey (gb : GroupBy) (s : RawSnapshot) : String :=
  match keyField gb s with
  | none => "on_demand"
  | some v => if v = "" then "on_demand" else v

/-- The `SnapInfo` record `group_snapshots` builds for one raw entry. -/
def snapInfoOf (o : PathOracle) (s : RawSnapshot) : SnapInfo :=
  { policy := s.policy_id
    path_id := s.source_file_id
    path_str := get_file_path o s.source_file_id
    name := s.name
    id := s.id
    expiration := s.expiration.getD ""
    size := 0 }

/-- The `SnapPolicyInfo` created when a group key is first seen:
the display path is the creating snapshot's resolved path, except
`"N/A"` for the `"on_demand"` group. -/
def newGroup (o : PathOracle) (gb : GroupBy) (s : RawSnapshot) : SnapPolicyInfo :=
  { policy_id := if gb = GroupBy.policy_id then s.policy_id else none
    path_id := if gb = GroupBy.source_file_id then s.source_file_id else none
    policy_name := codeGroupKey gb s
    snapshots := [snapInfoOf o s]
    path_str :=
      if codeGroupKey gb s ≠ "on_demand" then get_file_path o s.source_file_id
      else "N/A"
    size := 0 }

/-- One step of the grouping loop body on the insertion-ordered map:
append the record to an existing group, or create the group at the end. -/
def groupStep (o : PathOracle) (gb : GroupBy) (groups : List (String × SnapPolicyInfo))
    (s : RawSnapshot) : List (String × SnapPolicyInfo) :=
  let k := codeGroupKey gb s
  if (groups.map Prod.fst).contains k then
    groups.map (fun p =>
      if p.1 = k then (p.1, { p.2 with snapshots := p.2.snapshots ++ [snapInfoOf o s] })
      else p)
  else groups ++ [(k, newGroup o gb s)]

/-- The `for snapshot in self.snapshots` loop of `group_snapshots`. -/
def groupLoop (o : PathOracle) (gb : GroupBy) :
    List RawSnapshot → List (String × SnapPolicyInfo) → List (String × SnapPolicyInfo)
  | [], groups => groups
  | s :: rest, groups => groupLoop o gb rest (groupStep o gb groups s)

/-- `Snapshot.group_snapshots`. -/
def group_snapshots (o : PathOracle) (gb : GroupBy) (snaps : List RawSnapshot) :
    List (String × SnapPolicyInfo) :=
  groupLoop o gb snaps []

/-! ## `Snapshot.format_bytes` -/

/-- The unit sequence of `format_bytes`. -/
def units : List String := ["B", "KiB", "MiB", "GiB", "TiB", "PiB", "EiB"]

/-- Floor of the base-2 logarithm, by structural recursion on a fuel
argument so that the value computes inside the kernel; `bitLog n n` is
the bit position of the leading 1 of a positive `n`. -/
def bitLog : Nat → Nat → Nat
  | 0, _ => 0
  | fuel + 1, n => if n ≤ 1 then 0 else bitLog fuel (n / 2) + 1

/-- Round `num / den` to the nearest integer, ties to even: the
rounding IEEE-754 binary64 arithmetic applies. -/
def roundNearEvenDiv (num den : Nat) : Nat :=
  let q := num / den
  let r := num % den
  if 2 * r < den then q else if den < 2 * r then q + 1
  else if q % 2 = 0 then q else q + 1

/-- The exact value of the binary64 float produced by the first
`size_in_bytes /= 1024` (CPython int/int true division, correctly
rounded to nearest, ties to even), as a fraction `num / den`.  For `n`
below 2^53 the quotient `n / 1024` is exactly representable; otherwise
the quotient lies in the binade `[2^(b-10), 2^(b-9))` for `b = ⌊log2 n⌋`,
where the representable doubles are the multiples of `2^(b-62)`, so the
rounded significand is `n / 2^(b-52)` rounded to the nearest integer,
ties to even. -/
def floatDiv1024 (n : Nat) : Nat × Nat :=
  let b := bitLog n n
  if b ≤ 52 then (n, 1024)
  else
    let m := roundNearEvenDiv n (2 ^ (b - 52))
    if 62 ≤ b then (m * 2 ^ (b - 62), 1) else (m, 2 ^ (62 - b))

/-- The `while size_in_bytes >= 1024 and index < len(units) - 1` loop
from the second iteration on: the running value is a float already, so
each further division by 1024 only shifts its exponent and is exact;
the value is kept as the exact fraction `num / den`.  The index guard
allows at most five more iterations, so fuel 6 never runs out before
the guard stops the loop. -/
def fbLoop : Nat → Nat → Nat → Nat → Nat × Nat × Nat
  | 0, num, den, index => (num, den, index)
  | fuel + 1, num, den, index =>
    if 1024 * den ≤ num ∧ index < 6 then fbLoop fuel num (den * 1024) (index + 1)
    else (num, den, index)

/-- Python `f"{v:.1f}"` for the nonnegative exact value `num / den`:
round `10 * num / den` to the nearest integer, ties to even, and print
as integer part, dot, one digit. -/
def renderFixed1 (num den : Nat) : String :=
  let t := 10 * num
  let q := t / den
  let r := t % den
  let d := if 2 * r < den then q else if den < 2 * r then q + 1
           else if q % 2 = 0 then q else q + 1
  toString (d / 10) ++ "." ++ toString (d % 10)

/-- `Snapshot.format_bytes`.  An argument below 1024 never enters the
loop and is rendered exactly; otherwise the first division produces the
float `floatDiv1024` describes and the loop continues exactly on it. -/
def format_bytes (size_in_bytes : Nat) : String :=
  if 1024 ≤ size_in_bytes then
    match floatDiv1024 size_in_bytes with
    | (num, den) =>
      match fbLoop 6 num den 1 with
      | (num2, den2, index) => renderFixed1 num2 den2 ++ units.getD index ""
  else renderFixed1 size_in_bytes 1 ++ units.getD 0 ""

/-! ## `Snapshot._get_headers` -/

/-- `_get_headers`. -/
def get_headers (usage : GroupBy) : List String :=
  match usage with
  | .policy_id =>
    ["Policy ID", "Path", "Snapshot Name(s)", "Size", "Snapshot ID(s)",
     "Expiration Dates"]
  | .source_file_id =>
    ["Path ID", "Path", "Snapshot Name", "Size", "Snapshot ID(s)"]

/-! ## `Snapshot._prepare_rows` -/

/-- `min((snap.expiration for snap in group_info.snapshots if
snap.expiration != "N/A"), default="N/A")`. -/
def earliest_expiration (snaps : List SnapInfo) : String :=
  pyMinList ((snaps.map SnapInfo.expiration).filter (fun e => !(e == "N/A"))) "N/A"

/-- The row built for one member of the `"on_demand"` group: the path is
re-resolved live, the expiration falls back to `"N/A"` when falsy. -/
def odRowFor (o : PathOracle) (snap : SnapInfo) : List String :=
  ["on_demand",
   get_file_path o snap.path_id,
   snap.name,
   format_bytes snap.size,
   snap.id,
   if snap.expiration = "" then "N/A" else snap.expiration]

/-- The summary row built for one non-`"on_demand"` group. -/
def rowFor (k : String) (g : SnapPolicyInfo) : List String :=
  [k,
   g.path_str,
   joinComma (g.snapshots.map SnapInfo.name),
   format_bytes g.size,
   joinComma (g.snapshots.map SnapInfo.id),
   beforeT (earliest_expiration g.snapshots)]

/-- `Snapshot._prepare_rows` over the results map: on-demand rows first,
then one summary row per remaining group in map order. -/
def prepare_rows (o : PathOracle) (results : List (String × SnapPolicyInfo)) :
    List (List String) :=
  (match results.lookup "on_demand" with
   | some g => g.snapshots.map (odRowFor o)
   | none => []) ++
  (results.filter (fun p => !(p.1 == "on_demand"))).map (fun p => rowFor p.1 p.2)

/-! ## Capacity calculation -/

/-- The per-snapshot loop of `calculate_size_on_demand`: a successful
lookup stores the returned figure, any fault (snapshot no longer
exists, or anything else) leaves the stored size untouched. -/
def calcOdSnaps (cap : SnapCapOracle) : List SnapInfo → List SnapInfo
  | [] => []
  | si :: rest =>
    (match cap si.id with
     | .ok n => { si with size := n }
     | .err _ => si) :: calcOdSnaps cap rest

/-- Python dict assignment `results[k] = g` on the insertion-ordered map. -/
def upsertResult (results : List (String × SnapPolicyInfo)) (k : String)
    (g : SnapPolicyInfo) : List (String × SnapPolicyInfo) :=
  if (results.map Prod.fst).contains k then
    results.map (fun p => if p.1 = k then (p.1, g) else p)
  else results ++ [(k, g)]

/-- `Snapshot.calculate_size_on_demand`: update every member's size,
then store the group under `"on_demand"` in the results map. -/
def calculate_size_on_demand (cap : SnapCapOracle) (g : SnapPolicyInfo)
    (results : List (String × SnapPolicyInfo)) : List (String × SnapPolicyInfo) :=
  upsertResult results "on_demand" { g with snapshots := calcOdSnaps cap g.snapshots }

/-- `Snapshot.calculate_size_by_policy`: for each non-on-demand group
request one bulk figure over the member ids; on success store the sized
group in the results map, on fault skip the group. -/
def calculate_size_by_policy (capB : BulkCapOracle) :
    List (String × SnapPolicyInfo) → List (String × SnapPolicyInfo) →
    List (String × SnapPolicyInfo)
  | [], results => results
  | (k, g) :: rest, results =>
    if k = "on_demand" then calculate_size_by_policy capB rest results
    else
      match capB (g.snapshots.map SnapInfo.id) with
      | .ok n => calculate_size_by_policy capB rest (upsertResult results k { g with size := n })
      | .err _ => calculate_size_by_policy capB rest results

/-- `Snapshot.calculate_snapshot_sizes`: on-demand sizes first (when the
group exists), then the bulk-sized groups. -/
def calculate_snapshot_sizes (cap : SnapCapOracle) (capB : BulkCapOracle)
    (groups : List (String × SnapPolicyInfo)) : List (String × SnapPolicyInfo) :=
  calculate_size_by_policy capB groups
    (match groups.lookup "on_demand" with
     | some g => calculate_size_on_demand cap g []
     | none => [])

/-- One report run for one grouping key: group, size, prepare rows. -/
def reportRows (o : PathOracle) (cap : SnapCapOracle) (capB : BulkCapOracle)
    (gb : GroupBy) (snaps : List RawSnapshot) : List (List String) :=
  prepare_rows o (calculate_snapshot_sizes cap capB (group_snapshots o gb snaps))

/-! ## Specification-side definitions, for stating and settling the claims -/

/-- Append records to a group's member list, leaving every other field
unchanged. -/
def addSnaps (g : SnapPolicyInfo) (l : List SnapInfo) : SnapPolicyInfo :=
  { g with snapshots := g.snapshots ++ l }

/-- First-occurrence deduplication: the order in which distinct keys
first appear. -/
def dedupFirst : List String → List String
  | [] => []
  | k :: rest => k :: dedupFirst (rest.filter (fun x => !(x == k)))
  termination_by l => l.length
  decreasing_by simp_wf; exact Nat.lt_succ_of_le (List.length_filter_le _ _)

/-- Declarative form of the grouping loop: one group per first
occurrence of a key, carrying all inventory records with that key in
inventory order, seeded from the first such record. -/
def groupsSpec (o : PathOracle) (gb : GroupBy) :
    List RawSnapshot → List (String × SnapPolicyInfo)
  | [] => []
  | s :: rest =>
    (codeGroupKey gb s,
      addSnaps (newGroup o gb s)
        ((rest.filter (fun t => codeGroupKey gb t == codeGroupKey gb s)).map
          (snapInfoOf o)))
    :: groupsSpec o gb (rest.filter (fun t => !(codeGroupKey gb t == codeGroupKey gb s)))
  termination_by l => l.length
  decreasing_by simp_wf; exact Nat.lt_succ_of_le (List.length_filter_le _ _)

/-- The group key a stored `SnapInfo` record determines: the same
computation as `codeGroupKey`, read off the stored record. -/
def keyOfInfo (gb : GroupBy) (si : SnapInfo) : String :=
  match gb with
  | .policy_id =>
    match si.policy with
    | none => "on_demand"
    | some v => if v = "" then "on_demand" else v
  | .source_file_id =>
    match si.path_id with
    | none => "on_demand"
    | some v => if v = "" then "on_demand" else v

/-- The group key as the claim states it: the raw key field whenever it
is present and non-null, `"on_demand"` only when it is absent or null. -/
def statedGroupKey (gb : GroupBy) (s : RawSnapshot) : String :=
  match keyField gb s with
  | none => "on_demand"
  | some v => v

/-- Each report row paired with the snapshot ids it reports: an
on-demand row reports its single snapshot, a group summary row reports
every member of its group. -/
def rowCoverage (o : PathOracle) (results : List (String × SnapPolicyInfo)) :
    List (List String × List String) :=
  (match results.lookup "on_demand" with
   | some g => g.snapshots.map (fun si => (odRowFor o si, [si.id]))
   | none => []) ++
  (results.filter (fun p => !(p.1 == "on_demand"))).map
    (fun p => (rowFor p.1 p.2, p.2.snapshots.map SnapInfo.id))

/-- The path fields of the report rows whose snapshot-id column mentions
the given id. -/
def pathsReportedFor (rows : List (List String)) (id : String) : List String :=
  (rows.filter (fun row => containsSub id (row.getD 4 ""))).map
    (fun row => row.getD 1 "")

/-! ## Lexicographic order: the facts Python string `min` relies on -/

theorem lexLtB_irrefl : ∀ l : List Char, lexLtB l l = false
  | [] => rfl
  | a :: as => by simp [lexLtB, lexLtB_irrefl as]

theorem lexLtB_trans :
    ∀ (a b c : List Char), lexLtB a b = true → lexLtB b c = true →
      lexLtB a c = true := by
  intro a
  induction a with
  | nil =>
    intro b c hab hbc
    cases b with
    | nil => simp [lexLtB] at hab
    | cons y bs =>
      cases c with
      | nil => simp [lexLtB] at hbc
      | cons z cs => simp [lexLtB]
  | cons x as ih =>
    intro b c hab hbc
    cases b with
    | nil => simp [lexLtB] at hab
    | cons y bs =>
      cases c with
      | nil => simp [lexLtB] at hbc
      | cons z cs =>
        simp only [lexLtB] at hab hbc ⊢
        rcases Nat.lt_trichotomy x.toNat y.toNat with h1 | h1 | h1 <;>
          rcases Nat.lt_trichotomy y.toNat z.toNat with h2 | h2 | h2 <;>
          simp [h1, h2, Nat.lt_irrefl, Nat.lt_asymm, Nat.lt_trans] at hab hbc ⊢ <;>
          first
          | omega
          | (try simp [show x.toNat < z.toNat by omega]
             try simp [show ¬ x.toNat < z.toNat by omega, show ¬ z.toNat < x.toNat by omega]
             try exact ih bs cs hab hbc)

theorem lexLtB_of_lt_of_nlt :
    ∀ (a b c : List Char), lexLtB a b = true → lexLtB c b = false →
      lexLtB a c = true := by
  intro a
  induction a with
  | nil =>
    intro b c hab hcb
    cases b with
    | nil => simp [lexLtB] at hab
    | cons y bs =>
      cases c with
      | nil => simp [lexLtB] at hcb
      | cons z cs => simp [lexLtB]
  | cons x as ih =>
    intro b c hab hcb
    cases b with
    | nil => simp [lexLtB] at hab
    | cons y bs =>
      cases c with
      | nil => simp [lexLtB] at hcb
      | cons z cs =>
        simp only [lexLtB] at hab hcb ⊢
        rcases Nat.lt_trichotomy x.toNat y.toNat with h1 | h1 | h1 <;>
          rcases Nat.lt_trichotomy z.toNat y.toNat with h2 | h2 | h2 <;>
          simp [h1, h2, Nat.lt_irrefl, Nat.lt_asymm, Nat.lt_trans] at hab hcb ⊢ <;>
          first
          | omega
          | (try simp [show x.toNat < z.toNat by omega]
             try simp [show ¬ x.toNat < z.toNat by omega, show ¬ z.toNat < x.toNat by omega]
             try exact ih bs cs hab hcb)

theorem strLtB_irrefl (a : String) : strLtB a a = false := lexLtB_irrefl a.toList

theorem strLtB_trans {a b c : String} (h1 : strLtB a b = true)
    (h2 : strLtB b c = true) : strLtB a c = true :=
  lexLtB_trans a.toList b.toList c.toList h1 h2

theorem strLtB_of_lt_of_nlt {a b c : String} (h1 : strLtB a b = true)
    (h2 : strLtB c b = false) : strLtB a c = true :=
  lexLtB_of_lt_of_nlt a.toList b.toList c.toList h1 h2

theorem pyMinFold_spec :
    ∀ (xs : List String) (best : String),
      (xs.foldl (fun b e => if strLtB e b then e else b) best = best ∨
       xs.foldl (fun b e => if strLtB e b then e else b) best ∈ xs) ∧
      ∀ e, (e = best ∨ e ∈ xs) →
        strLtB e (xs.foldl (fun b e2 => if strLtB e2 b then e2 else b) best) = false := by
  intro xs
  induction xs with
  | nil =>
    intro best
    refine ⟨Or.inl rfl, ?_⟩
    intro e he
    rcases he with he | he
    · subst he; exact strLtB_irrefl e
    · simp at he
  | cons c rest ih =>
    intro best
    simp only [List.foldl_cons]
    rcases ih (if strLtB c best then c else best) with ⟨hmem, hle⟩
    constructor
    · rcases hmem with hmem | hmem
      · rw [hmem]
        by_cases hc : strLtB c best = true
        · simp [hc]
        · simp [hc]
      · exact Or.inr (List.mem_cons_of_mem _ hmem)
    · intro e he
      rcases he with he | he
      · rw [he]
        by_cases hc : strLtB c best = true
        · -- running best became c; no element is below the final result
          have hcbest : (if strLtB c best then c else best) = c := if_pos hc
          have hcr := hle c (Or.inl hcbest.symm)
          by_contra hbr
          simp only [Bool.not_eq_false] at hbr
          have : strLtB c c = true :=
            strLtB_trans hc (strLtB_of_lt_of_nlt hbr hcr)
          simp [strLtB_irrefl] at this
        · simp only [Bool.not_eq_true] at hc
          have hbbest : (if strLtB c best then c else best) = best := by simp [hc]
          exact hle best (Or.inl hbbest.symm)
      · rcases List.mem_cons.mp he with he | he
        · rw [he]
          by_cases hc : strLtB c best = true
          · have hcbest : (if strLtB c best then c else best) = c := if_pos hc
            exact hle c (Or.inl hcbest.symm)
          · simp only [Bool.not_eq_true] at hc
            have hbbest : (if strLtB c best then c else best) = best := by simp [hc]
            have hbr := hle best (Or.inl hbbest.symm)
            by_contra hcr
            simp only [Bool.not_eq_false] at hcr
            have : strLtB c best = true := strLtB_of_lt_of_nlt hcr hbr
            simp [this] at hc
        · exact hle e (Or.inr he)

theorem pyMinList_mem (l : List String) (dflt : String) (h : l ≠ []) :
    pyMinList l dflt ∈ l := by
  cases l with
  | nil => exact absurd rfl h
  | cons x xs =>
    rcases pyMinFold_spec xs x with ⟨hmem, _⟩
    simp only [pyMinList]
    rcases hmem with hm | hm
    · rw [hm]; exact List.mem_cons_self _ _
    · exact List.mem_cons_of_mem _ hm

theorem pyMinList_not_lt (l : List String) (dflt : String) :
    ∀ e ∈ l, strLtB e (pyMinList l dflt) = false := by
  cases l with
  | nil => intro e he; simp at he
  | cons x xs =>
    intro e he
    rcases pyMinFold_spec xs x with ⟨_, hle⟩
    rcases List.mem_cons.mp he with he | he
    · exact hle e (Or.inl he)
    · exact hle e (Or.inr he)

/-! ## The grouping loop: closed form -/

theorem addSnaps_nil (g : SnapPolicyInfo) : addSnaps g [] = g := by
  simp [addSnaps]

theorem contains_eq (l : List String) (a : String) : l.contains a = decide (a ∈ l) := by
  by_cases h : a ∈ l
  · rw [decide_eq_true h]
    exact List.elem_iff.mpr h
  · rw [decide_eq_false h]
    exact Bool.eq_false_iff.mpr (fun hh => h (List.elem_iff.mp hh))

theorem groupLoop_eq (o : PathOracle) (gb : GroupBy) :
    ∀ (l : List RawSnapshot) (groups : List (String × SnapPolicyInfo)),
      (groups.map Prod.fst).Nodup →
      groupLoop o gb l groups =
        groups.map (fun p => (p.1, addSnaps p.2
          ((l.filter (fun s => codeGroupKey gb s == p.1)).map (snapInfoOf o)))) ++
        groupsSpec o gb (l.filter
          (fun s => !((groups.map Prod.fst).contains (codeGroupKey gb s)))) := by
  intro l
  induction l with
  | nil =>
    intro groups hnd
    simp [groupLoop, addSnaps_nil, groupsSpec]
  | cons s rest ih =>
    intro groups hnd
    show groupLoop o gb rest (groupStep o gb groups s) = _
    by_cases hc : codeGroupKey gb s ∈ groups.map Prod.fst
    · -- the key already has a group: the record is appended to it
      have hstep : groupStep o gb groups s = groups.map (fun p =>
          if p.1 = codeGroupKey gb s then
            (p.1, { p.2 with snapshots := p.2.snapshots ++ [snapInfoOf o s] })
          else p) := by
        simp [groupStep, contains_eq, hc]
      have hkeys : ((groupStep o gb groups s).map Prod.fst) = groups.map Prod.fst := by
        rw [hstep, List.map_map]
        apply List.map_congr_left
        intro p hp
        by_cases hpk : p.1 = codeGroupKey gb s <;> simp [hpk]
      rw [ih (groupStep o gb groups s) (by rw [hkeys]; exact hnd), hkeys, hstep,
        List.map_map]
      congr 1
      · apply List.map_congr_left
        intro p hp
        by_cases hpk : p.1 = codeGroupKey gb s
        · have hbeq : (codeGroupKey gb s == p.1) = true := by simp [hpk]
          simp only [Function.comp_apply, if_pos hpk, List.filter_cons, hbeq,
            if_pos rfl, List.map_cons, addSnaps, hpk]
          simp [List.append_assoc]
        · have hbeq : (codeGroupKey gb s == p.1) = false := by
            simp only [beq_eq_false_iff_ne, ne_eq]
            intro hh
            exact hpk hh.symm
          simp only [Function.comp_apply, if_neg hpk, List.filter_cons, hbeq]
          simp
      · have hfalse : (!((groups.map Prod.fst).contains (codeGroupKey gb s))) = false := by
          simp [contains_eq, hc]
        simp only [List.filter_cons, hfalse]
        simp
    · -- a new group is appended at the end of the map
      have hstep : groupStep o gb groups s =
          groups ++ [(codeGroupKey gb s, newGroup o gb s)] := by
        simp only [groupStep]
        rw [if_neg]
        simp [contains_eq, hc]
      have hnd2 : (((groups ++ [(codeGroupKey gb s, newGroup o gb s)]).map Prod.fst)).Nodup := by
        rw [List.map_append]
        refine List.Nodup.append hnd (List.nodup_singleton _) ?_
        intro a ha hb
        simp only [List.map_cons, List.map_nil, List.mem_singleton] at hb
        subst hb
        exact hc ha
      rw [hstep, ih _ hnd2]
      simp only [List.map_append, List.map_cons, List.map_nil]
      have htail : (s :: rest).filter
          (fun t => !((groups.map Prod.fst).contains (codeGroupKey gb t))) =
          s :: rest.filter
            (fun t => !((groups.map Prod.fst).contains (codeGroupKey gb t))) := by
        have hcond : (!((groups.map Prod.fst).contains (codeGroupKey gb s))) = true := by
          rw [contains_eq, decide_eq_false hc]
          rfl
        simp only [List.filter_cons, hcond, if_true]
      rw [htail]
      rw [show groupsSpec o gb (s :: rest.filter
            (fun t => !((groups.map Prod.fst).contains (codeGroupKey gb t)))) =
          (codeGroupKey gb s,
            addSnaps (newGroup o gb s)
              (((rest.filter (fun t => !((groups.map Prod.fst).contains (codeGroupKey gb t)))).filter
                  (fun t => codeGroupKey gb t == codeGroupKey gb s)).map (snapInfoOf o)))
          :: groupsSpec o gb
            ((rest.filter (fun t => !((groups.map Prod.fst).contains (codeGroupKey gb t)))).filter
              (fun t => !(codeGroupKey gb t == codeGroupKey gb s))) from by
        rw [groupsSpec]]
      rw [List.filter_filter, List.filter_filter]
      have hfg : (rest.filter (fun t => (codeGroupKey gb t == codeGroupKey gb s) &&
          !((groups.map Prod.fst).contains (codeGroupKey gb t)))) =
          rest.filter (fun t => codeGroupKey gb t == codeGroupKey gb s) := by
        apply List.filter_congr
        intro t ht
        by_cases hts : codeGroupKey gb t = codeGroupKey gb s
        · simp [hts, contains_eq, hc]
        · simp [hts]
      have hft : (rest.filter (fun t => (!(codeGroupKey gb t == codeGroupKey gb s)) &&
          !((groups.map Prod.fst).contains (codeGroupKey gb t)))) =
          rest.filter (fun t =>
            !(((groups.map Prod.fst) ++ [codeGroupKey gb s]).contains (codeGroupKey gb t))) := by
        apply List.filter_congr
        intro t ht
        simp only [contains_eq]
        by_cases h1 : codeGroupKey gb t = codeGroupKey gb s <;>
          by_cases h2 : codeGroupKey gb t ∈ groups.map Prod.fst <;>
          simp [h1, h2]
      rw [hfg, hft]
      have hmaps : groups.map (fun p => (p.1, addSnaps p.2
          ((rest.filter (fun t => codeGroupKey gb t == p.1)).map (snapInfoOf o)))) =
          groups.map (fun p => (p.1, addSnaps p.2
            (((s :: rest).filter (fun t => codeGroupKey gb t == p.1)).map (snapInfoOf o)))) := by
        apply List.map_congr_left
        intro p hp
        have hpk : p.1 ≠ codeGroupKey gb s := by
          intro hh
          rw [← hh] at hc
          exact hc (List.mem_map_of_mem Prod.fst hp)
        have hbeq : (codeGroupKey gb s == p.1) = false := by
          simp only [beq_eq_false_iff_ne, ne_eq]
          intro hh
          exact hpk hh.symm
        simp [List.filter_cons, hbeq]
      rw [hmaps]
      have hhead : (s :: rest).filter
          (fun t => codeGroupKey gb t == codeGroupKey gb s) =
          s :: rest.filter (fun t => codeGroupKey gb t == codeGroupKey gb s) := by
        simp [List.filter_cons]
      simp [List.append_assoc, addSnaps, hhead]

theorem group_snapshots_eq (o : PathOracle) (gb : GroupBy) (l : List RawSnapshot) :
    group_snapshots o gb l = groupsSpec o gb l := by
  have h := groupLoop_eq o gb l [] (by simp)
  simp only [List.map_nil, List.nil_append] at h
  rw [group_snapshots, h]
  congr 1
  have hp : ∀ x ∈ l, (!(([] : List String).contains (codeGroupKey gb x))) = true :=
    fun x _ => rfl
  rw [List.filter_congr hp, List.filter_true]

theorem map_filter_comm {α β : Type} (f : α → β) (p : β → Bool) :
    ∀ l : List α, (l.filter (fun a => p (f a))).map f = (l.map f).filter p := by
  intro l
  induction l with
  | nil => rfl
  | cons a t ih =>
    by_cases h : p (f a) = true
    · simp [List.filter_cons, h, ih]
    · simp only [Bool.not_eq_true] at h
      simp [List.filter_cons, h, ih]

theorem spec_entry (o : PathOracle) (gb : GroupBy) :
    ∀ (l : List RawSnapshot) (k : String) (g : SnapPolicyInfo),
      (k, g) ∈ groupsSpec o gb l →
      ∃ s, ((l.filter (fun t => codeGroupKey gb t == k)).head? = some s) ∧
        codeGroupKey gb s = k ∧
        g = addSnaps (newGroup o gb s)
          (((l.filter (fun t => codeGroupKey gb t == k)).drop 1).map (snapInfoOf o))
  | [], k, g, h => by rw [groupsSpec] at h; simp at h
  | s :: rest, k, g, h => by
    rw [groupsSpec] at h
    rcases List.mem_cons.mp h with h | h
    · have hk : k = codeGroupKey gb s := congrArg Prod.fst h
      have hg : g = addSnaps (newGroup o gb s)
          ((rest.filter (fun t => codeGroupKey gb t == codeGroupKey gb s)).map
            (snapInfoOf o)) := congrArg Prod.snd h
      refine ⟨s, ?_, hk.symm, ?_⟩
      · subst hk
        simp [List.filter_cons]
      · subst hk
        simp only [List.filter_cons, beq_self_eq_true, if_true, List.drop_succ_cons,
          List.drop_zero]
        exact hg
    · have ih := spec_entry o gb
        (rest.filter (fun t => !(codeGroupKey gb t == codeGroupKey gb s))) k g h
      rcases ih with ⟨s1, hhead, hkey, hg⟩
      have hs1mem : s1 ∈ (rest.filter
          (fun t => !(codeGroupKey gb t == codeGroupKey gb s))).filter
          (fun t => codeGroupKey gb t == k) := by
        cases hL : (rest.filter
            (fun t => !(codeGroupKey gb t == codeGroupKey gb s))).filter
            (fun t => codeGroupKey gb t == k) with
        | nil => rw [hL] at hhead; simp at hhead
        | cons a t2 =>
          rw [hL] at hhead
          simp only [List.head?_cons, Option.some.injEq] at hhead
          rw [← hhead]
          exact List.mem_cons_self _ _
      have hkne : k ≠ codeGroupKey gb s := by
        have hmemL := (List.mem_filter.mp hs1mem).1
        have hne := (List.mem_filter.mp hmemL).2
        have hne2 : (codeGroupKey gb s1 == codeGroupKey gb s) = false := by
          revert hne
          cases codeGroupKey gb s1 == codeGroupKey gb s <;> simp
        rw [← hkey]
        exact beq_eq_false_iff_ne.mp hne2
      have hcollapse :
          (rest.filter (fun t => !(codeGroupKey gb t == codeGroupKey gb s))).filter
            (fun t => codeGroupKey gb t == k) =
          rest.filter (fun t => codeGroupKey gb t == k) := by
        rw [List.filter_filter]
        apply List.filter_congr
        intro t ht
        by_cases h1 : codeGroupKey gb t = k
        · simp [h1, hkne]
        · simp [h1]
      have hbeqs : (codeGroupKey gb s == k) = false := by
        simp only [beq_eq_false_iff_ne, ne_eq]
        intro hh
        exact hkne hh.symm
      have hdrop : (s :: rest).filter (fun t => codeGroupKey gb t == k) =
          rest.filter (fun t => codeGroupKey gb t == k) := by
        simp [List.filter_cons, hbeqs]
      rw [hcollapse] at hhead hg
      rw [hdrop]
      exact ⟨s1, hhead, hkey, hg⟩
  termination_by l => l.length
  decreasing_by simp_wf; exact Nat.lt_succ_of_le (List.length_filter_le _ _)

theorem spec_key_from_elem (o : PathOracle) (gb : GroupBy) :
    ∀ (l : List RawSnapshot) (k : String),
      k ∈ (groupsSpec o gb l).map Prod.fst → ∃ t ∈ l, codeGroupKey gb t = k
  | [], k, h => by rw [groupsSpec] at h; simp at h
  | s :: rest, k, h => by
    rw [groupsSpec] at h
    simp only [List.map_cons, List.mem_cons] at h
    rcases h with h | h
    · exact ⟨s, List.mem_cons_self _ _, h.symm⟩
    · rcases spec_key_from_elem o gb _ k h with ⟨t, ht, hkt⟩
      exact ⟨t, List.mem_cons_of_mem _ (List.mem_filter.mp ht).1, hkt⟩
  termination_by l => l.length
  decreasing_by simp_wf; exact Nat.lt_succ_of_le (List.length_filter_le _ _)

theorem spec_keys_nodup (o : PathOracle) (gb : GroupBy) :
    ∀ l : List RawSnapshot, ((groupsSpec o gb l).map Prod.fst).Nodup
  | [] => by rw [groupsSpec]; simp
  | s :: rest => by
    rw [groupsSpec]
    simp only [List.map_cons, List.nodup_cons]
    refine ⟨?_, spec_keys_nodup o gb _⟩
    intro hmem
    rcases spec_key_from_elem o gb _ _ hmem with ⟨t, ht, hkt⟩
    have := (List.mem_filter.mp ht).2
    rw [hkt] at this
    simp at this
  termination_by l => l.length
  decreasing_by simp_wf; exact Nat.lt_succ_of_le (List.length_filter_le _ _)

theorem spec_snapshots (o : PathOracle) (gb : GroupBy) (l : List RawSnapshot)
    (k : String) (g : SnapPolicyInfo) (h : (k, g) ∈ groupsSpec o gb l) :
    g.snapshots = (l.filter (fun t => codeGroupKey gb t == k)).map (snapInfoOf o) := by
  rcases spec_entry o gb l k g h with ⟨s, hhead, hkey, hg⟩
  cases hL : l.filter (fun t => codeGroupKey gb t == k) with
  | nil => rw [hL] at hhead; simp at hhead
  | cons a t =>
    rw [hL] at hhead hg
    simp only [List.head?_cons, Option.some.injEq] at hhead
    rw [hg, addSnaps, ← hhead]
    simp [newGroup]

theorem spec_keys (o : PathOracle) (gb : GroupBy) :
    ∀ l : List RawSnapshot,
      (groupsSpec o gb l).map Prod.fst = dedupFirst (l.map (codeGroupKey gb))
  | [] => by rw [groupsSpec]; simp [dedupFirst]
  | s :: rest => by
    rw [groupsSpec]
    simp only [List.map_cons]
    rw [spec_keys o gb (rest.filter (fun t => !(codeGroupKey gb t == codeGroupKey gb s)))]
    conv_rhs => rw [dedupFirst]
    congr 1
    rw [map_filter_comm (codeGroupKey gb) (fun x => !(x == codeGroupKey gb s)) rest]
  termination_by l => l.length
  decreasing_by simp_wf; exact Nat.lt_succ_of_le (List.length_filter_le _ _)

theorem spec_path (o : PathOracle) (gb : GroupBy) (l : List RawSnapshot)
    (k : String) (g : SnapPolicyInfo) (h : (k, g) ∈ groupsSpec o gb l) :
    g.path_str = if k = "on_demand" then "N/A"
      else (g.snapshots.head?.map SnapInfo.path_str).getD "N/A" := by
  rcases spec_entry o gb l k g h with ⟨s, hhead, hkey, hg⟩
  by_cases hk : k = "on_demand"
  · rw [if_pos hk, hg]
    show (newGroup o gb s).path_str = "N/A"
    simp only [newGroup]
    rw [if_neg]
    rw [hkey, hk]
    simp
  · rw [if_neg hk, hg]
    show (newGroup o gb s).path_str =
      (((newGroup o gb s).snapshots ++ _).head?.map SnapInfo.path_str).getD "N/A"
    simp only [newGroup, List.cons_append, List.head?_cons]
    rw [if_pos]
    · rfl
    · rw [hkey]; exact hk

theorem spec_join_perm (o : PathOracle) (gb : GroupBy) :
    ∀ l : List RawSnapshot,
      ((groupsSpec o gb l).map (fun p => p.2.snapshots)).flatten.Perm
        (l.map (snapInfoOf o))
  | [] => by rw [groupsSpec]; simp
  | s :: rest => by
    rw [groupsSpec]
    simp only [List.map_cons, List.flatten_cons, addSnaps, newGroup,
      List.singleton_append, List.cons_append]
    refine List.Perm.cons _ ?_
    have ih := spec_join_perm o gb
      (rest.filter (fun t => !(codeGroupKey gb t == codeGroupKey gb s)))
    refine List.Perm.trans (List.Perm.append_left _ ih) ?_
    simp only [List.nil_append]
    rw [← List.map_append]
    exact List.Perm.map (snapInfoOf o)
      (List.filter_append_perm (fun t => codeGroupKey gb t == codeGroupKey gb s) rest)
  termination_by l => l.length
  decreasing_by simp_wf; exact Nat.lt_succ_of_le (List.length_filter_le _ _)

theorem keyOfInfo_info (o : PathOracle) (gb : GroupBy) (s : RawSnapshot) :
    keyOfInfo gb (snapInfoOf o s) = codeGroupKey gb s := by
  cases gb <;> rfl

theorem spec_member_key (o : PathOracle) (gb : GroupBy) (l : List RawSnapshot)
    (k : String) (g : SnapPolicyInfo) (h : (k, g) ∈ groupsSpec o gb l)
    (si : SnapInfo) (hsi : si ∈ g.snapshots) : keyOfInfo gb si = k := by
  rw [spec_snapshots o gb l k g h] at hsi
  rcases List.mem_map.mp hsi with ⟨t, ht, hinfo⟩
  have hkt : (codeGroupKey gb t == k) = true := (List.mem_filter.mp ht).2
  rw [← hinfo, keyOfInfo_info]
  exact beq_iff_eq.mp hkt

theorem spec_exists_group (o : PathOracle) (gb : GroupBy) :
    ∀ (l : List RawSnapshot) (t : RawSnapshot), t ∈ l →
      ∃ g, (codeGroupKey gb t, g) ∈ groupsSpec o gb l ∧ snapInfoOf o t ∈ g.snapshots
  | [], t, h => absurd h (List.not_mem_nil t)
  | s :: rest, t, h => by
    rw [groupsSpec]
    by_cases hts : codeGroupKey gb t = codeGroupKey gb s
    · refine ⟨addSnaps (newGroup o gb s)
        ((rest.filter (fun u => codeGroupKey gb u == codeGroupKey gb s)).map
          (snapInfoOf o)), ?_, ?_⟩
      · rw [hts]
        exact List.mem_cons_self _ _
      · simp only [addSnaps, newGroup, List.singleton_append]
        rcases List.mem_cons.mp h with h1 | h1
        · rw [h1]
          exact List.mem_cons_self _ _
        · refine List.mem_cons_of_mem _ (List.mem_map_of_mem (snapInfoOf o) ?_)
          exact List.mem_filter.mpr ⟨h1, by simp [hts]⟩
    · have ht : t ∈ rest := by
        rcases List.mem_cons.mp h with h1 | h1
        · exact absurd (by rw [h1]) hts
        · exact h1
      have htf : t ∈ rest.filter (fun u => !(codeGroupKey gb u == codeGroupKey gb s)) :=
        List.mem_filter.mpr ⟨ht, by simp [hts]⟩
      rcases spec_exists_group o gb _ t htf with ⟨g, hg, hmem⟩
      exact ⟨g, List.mem_cons_of_mem _ hg, hmem⟩
  termination_by l => l.length
  decreasing_by simp_wf; exact Nat.lt_succ_of_le (List.length_filter_le _ _)

/-! ## The results map: lookup and upsert -/

theorem lookup_eq_none_of_not_mem :
    ∀ (l : List (String × SnapPolicyInfo)) (k : String),
      k ∉ l.map Prod.fst → l.lookup k = none := by
  intro l
  induction l with
  | nil => intro k _; rfl
  | cons p rest ih =>
    intro k hk
    simp only [List.map_cons, List.mem_cons, not_or] at hk
    have hbeq : (k == p.1) = false := by
      simp only [beq_eq_false_iff_ne, ne_eq]
      exact hk.1
    cases p with
    | mk a b =>
      simp only [List.lookup_cons]
      simp only at hbeq
      rw [hbeq]
      exact ih k hk.2

theorem mem_of_lookup_eq_some :
    ∀ (l : List (String × SnapPolicyInfo)) (k : String) (g : SnapPolicyInfo),
      l.lookup k = some g → (k, g) ∈ l := by
  intro l
  induction l with
  | nil => intro k g h; simp [List.lookup] at h
  | cons p rest ih =>
    intro k g h
    cases p with
    | mk a b =>
      simp only [List.lookup_cons] at h
      cases hbeq : k == a with
      | true =>
        rw [hbeq] at h
        simp only [Option.some.injEq] at h
        have hka : k = a := beq_iff_eq.mp hbeq
        rw [hka, ← h]
        exact List.mem_cons_self _ _
      | false =>
        rw [hbeq] at h
        exact List.mem_cons_of_mem _ (ih k g h)

theorem lookup_of_mem_nodup :
    ∀ (l : List (String × SnapPolicyInfo)) (k : String) (g : SnapPolicyInfo),
      (l.map Prod.fst).Nodup → (k, g) ∈ l → l.lookup k = some g := by
  intro l
  induction l with
  | nil => intro k g _ h; simp at h
  | cons p rest ih =>
    intro k g hnd h
    cases p with
    | mk a b =>
      simp only [List.map_cons, List.nodup_cons] at hnd
      rcases List.mem_cons.mp h with h1 | h1
      · simp only [Prod.mk.injEq] at h1
        have hka : k = a := h1.1
        have hgb : g = b := h1.2
        simp only [List.lookup_cons]
        rw [show (k == a) = true from by simp [hka], hgb]
      · have hka : k ≠ a := by
          intro hh
          apply hnd.1
          subst hh
          exact List.mem_map_of_mem Prod.fst h1
        simp only [List.lookup_cons]
        rw [show (k == a) = false from by simp [hka]]
        exact ih k g hnd.2 h1

theorem mem_upsertResult :
    ∀ (results : List (String × SnapPolicyInfo)) (k k2 : String) (g g2 : SnapPolicyInfo),
      (k2, g2) ∈ upsertResult results k g →
      (k2, g2) ∈ results ∨ (k2 = k ∧ g2 = g) := by
  intro results k k2 g g2 h
  rw [upsertResult] at h
  by_cases hc : (results.map Prod.fst).contains k = true
  · rw [if_pos hc] at h
    rcases List.mem_map.mp h with ⟨p, hp, heq⟩
    by_cases hpk : p.1 = k
    · rw [if_pos hpk] at heq
      simp only [Prod.mk.injEq] at heq
      exact Or.inr ⟨heq.1.symm.trans hpk, heq.2.symm⟩
    · rw [if_neg hpk] at heq
      left
      rw [← heq]
      exact hp
  · rw [if_neg hc] at h
    rcases List.mem_append.mp h with h1 | h1
    · exact Or.inl h1
    · simp only [List.mem_singleton, Prod.mk.injEq] at h1
      exact Or.inr h1

theorem lookup_map_replace :
    ∀ (results : List (String × SnapPolicyInfo)) (k : String) (g : SnapPolicyInfo),
      k ∈ results.map Prod.fst →
      (results.map (fun p => if p.1 = k then (p.1, g) else p)).lookup k = some g := by
  intro results
  induction results with
  | nil => intro k g h; simp at h
  | cons p rest ih =>
    intro k g hmem
    cases p with
    | mk a b =>
      by_cases hak : a = k
      · simp only [List.map_cons, if_pos hak, List.lookup_cons]
        rw [show (k == a) = true from by simp [hak.symm]]
      · simp only [List.map_cons, if_neg hak, List.lookup_cons]
        rw [show (k == a) = false from by
          simp only [beq_eq_false_iff_ne, ne_eq]
          exact fun hh => hak hh.symm]
        apply ih
        simp only [List.map_cons, List.mem_cons] at hmem
        rcases hmem with hmem | hmem
        · exact absurd hmem.symm hak
        · exact hmem

theorem lookup_map_replace_ne :
    ∀ (results : List (String × SnapPolicyInfo)) (k k2 : String) (g : SnapPolicyInfo),
      k2 ≠ k →
      (results.map (fun p => if p.1 = k then (p.1, g) else p)).lookup k2 =
        results.lookup k2 := by
  intro results
  induction results with
  | nil => intro k k2 g _; rfl
  | cons p rest ih =>
    intro k k2 g hne
    cases p with
    | mk a b =>
      by_cases hak : a = k
      · simp only [List.map_cons, if_pos hak, List.lookup_cons]
        rw [show (k2 == a) = false from by
          simp only [beq_eq_false_iff_ne, ne_eq]
          rw [hak]
          exact hne]
        exact ih k k2 g hne
      · simp only [List.map_cons, if_neg hak, List.lookup_cons]
        cases hbeq : (k2 == a) with
        | true => rfl
        | false => exact ih k k2 g hne

theorem lookup_append_single :
    ∀ (results : List (String × SnapPolicyInfo)) (k k2 : String) (g : SnapPolicyInfo),
      (results ++ [(k, g)]).lookup k2 =
        if k2 = k then some ((results.lookup k2).getD g) else results.lookup k2 := by
  intro results
  induction results with
  | nil =>
    intro k k2 g
    by_cases h : k2 = k
    · simp only [List.nil_append, List.lookup_cons, if_pos h]
      rw [show (k2 == k) = true from by simp [h]]
      rfl
    · simp only [List.nil_append, List.lookup_cons, if_neg h]
      rw [show (k2 == k) = false from by simp [h]]
  | cons p rest ih =>
    intro k k2 g
    cases p with
    | mk a b =>
      simp only [List.cons_append, List.lookup_cons]
      cases hbeq : (k2 == a) with
      | true =>
        by_cases h : k2 = k
        · rw [if_pos h]; rfl
        · rw [if_neg h]
      | false => exact ih k k2 g

theorem lookup_upsert_self (results : List (String × SnapPolicyInfo)) (k : String)
    (g : SnapPolicyInfo) : (upsertResult results k g).lookup k = some g := by
  rw [upsertResult]
  by_cases hc : (results.map Prod.fst).contains k = true
  · rw [if_pos hc]
    apply lookup_map_replace
    rw [contains_eq] at hc
    exact of_decide_eq_true hc
  · rw [if_neg hc]
    have hnm : k ∉ results.map Prod.fst := by
      intro hmem
      rw [contains_eq] at hc
      exact hc (decide_eq_true hmem)
    rw [lookup_append_single, if_pos rfl, lookup_eq_none_of_not_mem results k hnm]
    rfl

theorem lookup_upsert_ne (results : List (String × SnapPolicyInfo)) (k k2 : String)
    (g : SnapPolicyInfo) (hne : k2 ≠ k) :
    (upsertResult results k g).lookup k2 = results.lookup k2 := by
  rw [upsertResult]
  by_cases hc : (results.map Prod.fst).contains k = true
  · rw [if_pos hc]
    exact lookup_map_replace_ne results k k2 g hne
  · rw [if_neg hc]
    rw [lookup_append_single, if_neg hne]

/-! ## Capacity calculation: the results the two calculators store -/

theorem calcOdSnaps_eq_map (cap : SnapCapOracle) :
    ∀ l : List SnapInfo, calcOdSnaps cap l = l.map (fun si =>
      match cap si.id with
      | .ok n => { si with size := n }
      | .err _ => si) := by
  intro l
  induction l with
  | nil => rfl
  | cons si rest ih => simp [calcOdSnaps, ih]

theorem csbp_lookup_skip (capB : BulkCapOracle) :
    ∀ (groups results : List (String × SnapPolicyInfo)) (k : String),
      k ∉ groups.map Prod.fst →
      (calculate_size_by_policy capB groups results).lookup k = results.lookup k := by
  intro groups
  induction groups with
  | nil => intro results k _; rfl
  | cons p rest ih =>
    intro results k hk
    cases p with
    | mk a b =>
      simp only [List.map_cons, List.mem_cons, not_or] at hk
      rw [calculate_size_by_policy]
      by_cases ha : a = "on_demand"
      · rw [if_pos ha]
        exact ih results k hk.2
      · rw [if_neg ha]
        cases hcap : capB (b.snapshots.map SnapInfo.id) with
        | ok n =>
          rw [ih _ k hk.2, lookup_upsert_ne _ _ _ _ hk.1]
        | err e =>
          exact ih results k hk.2

theorem csbp_lookup_od (capB : BulkCapOracle) :
    ∀ (groups results : List (String × SnapPolicyInfo)),
      (calculate_size_by_policy capB groups results).lookup "on_demand" =
        results.lookup "on_demand" := by
  intro groups
  induction groups with
  | nil => intro results; rfl
  | cons p rest ih =>
    intro results
    cases p with
    | mk a b =>
      rw [calculate_size_by_policy]
      by_cases ha : a = "on_demand"
      · rw [if_pos ha]
        exact ih results
      · rw [if_neg ha]
        cases hcap : capB (b.snapshots.map SnapInfo.id) with
        | ok n =>
          rw [ih _, lookup_upsert_ne _ _ _ _ (fun hh => ha hh.symm)]
        | err e => exact ih results

theorem csbp_lookup_mem (capB : BulkCapOracle) :
    ∀ (groups results : List (String × SnapPolicyInfo)) (k : String) (g : SnapPolicyInfo),
      (groups.map Prod.fst).Nodup → (k, g) ∈ groups → k ≠ "on_demand" →
      (calculate_size_by_policy capB groups results).lookup k =
        match capB (g.snapshots.map SnapInfo.id) with
        | .ok n => some { g with size := n }
        | .err _ => results.lookup k := by
  intro groups
  induction groups with
  | nil => intro results k g _ h _; simp at h
  | cons p rest ih =>
    intro results k g hnd hmem hkod
    cases p with
    | mk a b =>
      simp only [List.map_cons, List.nodup_cons] at hnd
      rw [calculate_size_by_policy]
      rcases List.mem_cons.mp hmem with h1 | h1
      · simp only [Prod.mk.injEq] at h1
        obtain ⟨hka, hgb⟩ := h1
        subst hka
        subst hgb
        rw [if_neg hkod]
        cases hcap : capB (g.snapshots.map SnapInfo.id) with
        | ok n =>
          rw [csbp_lookup_skip capB rest _ k hnd.1, lookup_upsert_self]
        | err e =>
          rw [csbp_lookup_skip capB rest _ k hnd.1]
      · have hka : k ≠ a := by
          intro hh
          apply hnd.1
          subst hh
          exact List.mem_map_of_mem Prod.fst h1
        by_cases ha : a = "on_demand"
        · rw [if_pos ha]
          exact ih results k g hnd.2 h1 hkod
        · rw [if_neg ha]
          cases hcap : capB (b.snapshots.map SnapInfo.id) with
          | ok n =>
            rw [ih _ k g hnd.2 h1 hkod]
            cases capB (g.snapshots.map SnapInfo.id) with
            | ok m => rfl
            | err e => rw [lookup_upsert_ne _ _ _ _ hka]
          | err e => exact ih results k g hnd.2 h1 hkod

theorem csbp_mem_src (capB : BulkCapOracle) :
    ∀ (groups results : List (String × SnapPolicyInfo)) (k : String) (g : SnapPolicyInfo),
      (k, g) ∈ calculate_size_by_policy capB groups results →
      (k, g) ∈ results ∨ ∃ g0 n, (k, g0) ∈ groups ∧
        capB (g0.snapshots.map SnapInfo.id) = .ok n ∧ g = { g0 with size := n } := by
  intro groups
  induction groups with
  | nil => intro results k g h; exact Or.inl h
  | cons p rest ih =>
    intro results k g h
    cases p with
    | mk a b =>
      rw [calculate_size_by_policy] at h
      by_cases ha : a = "on_demand"
      · rw [if_pos ha] at h
        rcases ih results k g h with h1 | ⟨g0, n, hg0, hcap, hgeq⟩
        · exact Or.inl h1
        · exact Or.inr ⟨g0, n, List.mem_cons_of_mem _ hg0, hcap, hgeq⟩
      · rw [if_neg ha] at h
        cases hcap : capB (b.snapshots.map SnapInfo.id) with
        | ok n =>
          rw [hcap] at h
          rcases ih _ k g h with h1 | ⟨g0, n2, hg0, hcap2, hgeq⟩
          · rcases mem_upsertResult _ _ _ _ _ h1 with h2 | ⟨h2, h3⟩
            · exact Or.inl h2
            · subst h2
              exact Or.inr ⟨b, n, List.mem_cons_self _ _, hcap, h3⟩
          · exact Or.inr ⟨g0, n2, List.mem_cons_of_mem _ hg0, hcap2, hgeq⟩
        | err e =>
          rw [hcap] at h
          rcases ih results k g h with h1 | ⟨g0, n2, hg0, hcap2, hgeq⟩
          · exact Or.inl h1
          · exact Or.inr ⟨g0, n2, List.mem_cons_of_mem _ hg0, hcap2, hgeq⟩

theorem lookup_ne_none_of_mem :
    ∀ (l : List (String × SnapPolicyInfo)) (k : String) (g : SnapPolicyInfo),
      (k, g) ∈ l → l.lookup k ≠ none := by
  intro l
  induction l with
  | nil => intro k g h; simp at h
  | cons p rest ih =>
    intro k g h
    cases p with
    | mk a b =>
      simp only [List.lookup_cons]
      cases hbeq : (k == a) with
      | true => simp
      | false =>
        rcases List.mem_cons.mp h with h1 | h1
        · simp only [Prod.mk.injEq] at h1
          rw [h1.1] at hbeq
          simp at hbeq
        · exact ih k g h1

/-! ## Report rows: membership and shape -/

theorem mem_prepare_rows_group (o : PathOracle)
    (results : List (String × SnapPolicyInfo)) (k : String) (g : SnapPolicyInfo)
    (h : (k, g) ∈ results) (hk : k ≠ "on_demand") :
    rowFor k g ∈ prepare_rows o results := by
  rw [prepare_rows]
  apply List.mem_append_right
  apply List.mem_map.mpr
  refine ⟨(k, g), ?_, rfl⟩
  exact List.mem_filter.mpr ⟨h, by simp [hk]⟩

theorem prepare_rows_mem_shape (o : PathOracle)
    (results : List (String × SnapPolicyInfo)) (row : List String)
    (h : row ∈ prepare_rows o results) :
    (∃ g si, results.lookup "on_demand" = some g ∧ si ∈ g.snapshots ∧
      row = odRowFor o si) ∨
    (∃ p, p ∈ results ∧ p.1 ≠ "on_demand" ∧ row = rowFor p.1 p.2) := by
  rw [prepare_rows] at h
  rcases List.mem_append.mp h with h | h
  · cases hod : results.lookup "on_demand" with
    | none => rw [hod] at h; simp at h
    | some g =>
      rw [hod] at h
      rcases List.mem_map.mp h with ⟨si, hsi, heq⟩
      exact Or.inl ⟨g, si, rfl, hsi, heq.symm⟩
  · rcases List.mem_map.mp h with ⟨p, hp, heq⟩
    rcases List.mem_filter.mp hp with ⟨hp1, hp2⟩
    refine Or.inr ⟨p, hp1, ?_, heq.symm⟩
    simpa using hp2

theorem prepare_rows_head_ne (o : PathOracle)
    (results : List (String × SnapPolicyInfo)) (k : String) (hk : k ≠ "on_demand")
    (habs : ∀ g, (k, g) ∉ results) :
    ∀ row ∈ prepare_rows o results, row.head? ≠ some k := by
  intro row hrow
  rcases prepare_rows_mem_shape o results row hrow with
    ⟨g, si, _, _, heq⟩ | ⟨p, hp, _, heq⟩
  · rw [heq]
    intro hh
    simp only [odRowFor, List.head?_cons, Option.some.injEq] at hh
    exact hk hh.symm
  · rw [heq]
    intro hh
    simp only [rowFor, List.head?_cons, Option.some.injEq] at hh
    apply habs p.2
    rw [← hh]
    exact hp

theorem prepare_rows_length (o : PathOracle)
    (results : List (String × SnapPolicyInfo)) :
    ∀ row ∈ prepare_rows o results, row.length = 6 := by
  intro row hrow
  rcases prepare_rows_mem_shape o results row hrow with
    ⟨g, si, _, _, heq⟩ | ⟨p, _, _, heq⟩ <;> rw [heq] <;> rfl

theorem rowCoverage_fst (o : PathOracle) (results : List (String × SnapPolicyInfo)) :
    (rowCoverage o results).map Prod.fst = prepare_rows o results := by
  rw [rowCoverage, prepare_rows, List.map_append, List.map_map]
  congr 1
  cases results.lookup "on_demand" with
  | none => rfl
  | some g =>
    show (g.snapshots.map (fun si => (odRowFor o si, [si.id]))).map Prod.fst =
      g.snapshots.map (odRowFor o)
    rw [List.map_map]
    rfl

theorem mem_rowCoverage_od (o : PathOracle)
    (results : List (String × SnapPolicyInfo)) (g : SnapPolicyInfo) (si : SnapInfo)
    (hlk : results.lookup "on_demand" = some g) (hsi : si ∈ g.snapshots) :
    (odRowFor o si, [si.id]) ∈ rowCoverage o results := by
  rw [rowCoverage, hlk]
  exact List.mem_append_left _ (List.mem_map_of_mem _ hsi)

theorem mem_rowCoverage_group (o : PathOracle)
    (results : List (String × SnapPolicyInfo)) (k : String) (g : SnapPolicyInfo)
    (h : (k, g) ∈ results) (hk : k ≠ "on_demand") :
    (rowFor k g, g.snapshots.map SnapInfo.id) ∈ rowCoverage o results := by
  rw [rowCoverage]
  apply List.mem_append_right
  apply List.mem_map.mpr
  refine ⟨(k, g), ?_, rfl⟩
  exact List.mem_filter.mpr ⟨h, by simp [hk]⟩

theorem rowCoverage_shape (o : PathOracle)
    (results : List (String × SnapPolicyInfo)) (rc : List String × List String)
    (h : rc ∈ rowCoverage o results) :
    (∃ g si, results.lookup "on_demand" = some g ∧ si ∈ g.snapshots ∧
      rc = (odRowFor o si, [si.id])) ∨
    (∃ p, p ∈ results ∧ p.1 ≠ "on_demand" ∧
      rc = (rowFor p.1 p.2, p.2.snapshots.map SnapInfo.id)) := by
  rw [rowCoverage] at h
  rcases List.mem_append.mp h with h | h
  · cases hod : results.lookup "on_demand" with
    | none => rw [hod] at h; simp at h
    | some g =>
      rw [hod] at h
      rcases List.mem_map.mp h with ⟨si, hsi, heq⟩
      exact Or.inl ⟨g, si, rfl, hsi, heq.symm⟩
  · rcases List.mem_map.mp h with ⟨p, hp, heq⟩
    rcases List.mem_filter.mp hp with ⟨hp1, hp2⟩
    refine Or.inr ⟨p, hp1, ?_, heq.symm⟩
    simpa using hp2

/-! ## The full pipeline: what ends up in the results map -/

theorem css_lookup_od_none (cap : SnapCapOracle) (capB : BulkCapOracle)
    (G : List (String × SnapPolicyInfo)) (h : G.lookup "on_demand" = none) :
    (calculate_snapshot_sizes cap capB G).lookup "on_demand" = none := by
  rw [calculate_snapshot_sizes, csbp_lookup_od, h]
  rfl

theorem css_lookup_od_some (cap : SnapCapOracle) (capB : BulkCapOracle)
    (G : List (String × SnapPolicyInfo)) (g : SnapPolicyInfo)
    (h : G.lookup "on_demand" = some g) :
    (calculate_snapshot_sizes cap capB G).lookup "on_demand" =
      some { g with snapshots := calcOdSnaps cap g.snapshots } := by
  rw [calculate_snapshot_sizes, csbp_lookup_od, h]
  show (calculate_size_on_demand cap g []).lookup "on_demand" = _
  exact lookup_upsert_self [] "on_demand" _

theorem css_results0_lookup_ne (cap : SnapCapOracle)
    (G : List (String × SnapPolicyInfo)) (k : String) (hk : k ≠ "on_demand") :
    (match G.lookup "on_demand" with
     | some g => calculate_size_on_demand cap g []
     | none => ([] : List (String × SnapPolicyInfo))).lookup k = none := by
  cases G.lookup "on_demand" with
  | none => rfl
  | some g =>
    show (calculate_size_on_demand cap g []).lookup k = none
    rw [calculate_size_on_demand, lookup_upsert_ne _ _ _ _ hk]
    rfl

theorem css_lookup_ne_od (cap : SnapCapOracle) (capB : BulkCapOracle)
    (G : List (String × SnapPolicyInfo)) (k : String) (g : SnapPolicyInfo)
    (hnd : (G.map Prod.fst).Nodup) (hmem : (k, g) ∈ G) (hk : k ≠ "on_demand") :
    (calculate_snapshot_sizes cap capB G).lookup k =
      match capB (g.snapshots.map SnapInfo.id) with
      | .ok n => some { g with size := n }
      | .err _ => none := by
  rw [calculate_snapshot_sizes, csbp_lookup_mem capB _ _ k g hnd hmem hk]
  cases capB (g.snapshots.map SnapInfo.id) with
  | ok n => rfl
  | err e => exact css_results0_lookup_ne cap G k hk

theorem css_mem_src (cap : SnapCapOracle) (capB : BulkCapOracle)
    (G : List (String × SnapPolicyInfo)) (k : String) (gr : SnapPolicyInfo)
    (h : (k, gr) ∈ calculate_snapshot_sizes cap capB G) :
    (k = "on_demand" ∧ ∃ g0, G.lookup "on_demand" = some g0 ∧
      gr = { g0 with snapshots := calcOdSnaps cap g0.snapshots }) ∨
    (∃ g0 n, (k, g0) ∈ G ∧ capB (g0.snapshots.map SnapInfo.id) = .ok n ∧
      gr = { g0 with size := n }) := by
  rw [calculate_snapshot_sizes] at h
  rcases csbp_mem_src capB _ _ k gr h with h1 | h1
  · left
    cases hod : G.lookup "on_demand" with
    | none =>
      rw [hod] at h1
      have h2 : (k, gr) ∈ ([] : List (String × SnapPolicyInfo)) := h1
      simp at h2
    | some g0 =>
      rw [hod] at h1
      have h2 : (k, gr) ∈
          [("on_demand", { g0 with snapshots := calcOdSnaps cap g0.snapshots })] := h1
      simp only [List.mem_singleton, Prod.mk.injEq] at h2
      exact ⟨h2.1, g0, rfl, h2.2⟩
  · exact Or.inr h1

/-! ## Key fields of grouped snapshots -/

theorem keyField_of_ne_od (gb : GroupBy) (t : RawSnapshot) (k : String)
    (h : codeGroupKey gb t = k) (hk : k ≠ "on_demand") :
    keyField gb t = some k ∧ k ≠ "" := by
  have h2 := h
  simp only [codeGroupKey] at h2
  cases hv : keyField gb t with
  | none =>
    rw [hv] at h2
    have h3 : "on_demand" = k := h2
    exact absurd h3.symm hk
  | some v =>
    rw [hv] at h2
    have h3 : (if v = "" then "on_demand" else v) = k := h2
    by_cases hve : v = ""
    · rw [if_pos hve] at h3
      exact absurd h3.symm hk
    · rw [if_neg hve] at h3
      refine ⟨by rw [h3], ?_⟩
      rw [← h3]
      exact hve

theorem sfid_share (t s : RawSnapshot) (k : String)
    (ht : codeGroupKey GroupBy.source_file_id t = k)
    (hs : codeGroupKey GroupBy.source_file_id s = k) (hk : k ≠ "on_demand") :
    t.source_file_id = s.source_file_id := by
  have h1 := (keyField_of_ne_od GroupBy.source_file_id t k ht hk).1
  have h2 := (keyField_of_ne_od GroupBy.source_file_id s k hs hk).1
  have e1 : t.source_file_id = some k := h1
  have e2 : s.source_file_id = some k := h2
  rw [e1, e2]

/-! ## Path consistency of the rows covering one snapshot -/

theorem coverage_path (o : PathOracle) (cap : SnapCapOracle) (capB : BulkCapOracle)
    (gb : GroupBy) (inv : List RawSnapshot)
    (hids : (inv.map RawSnapshot.id).Nodup)
    (hsh : ∀ s ∈ inv, ∀ t ∈ inv, codeGroupKey gb s = codeGroupKey gb t →
      codeGroupKey gb s ≠ "on_demand" → s.source_file_id = t.source_file_id) :
    ∀ s ∈ inv, ∀ rc ∈ rowCoverage o (calculate_snapshot_sizes cap capB
        (group_snapshots o gb inv)), s.id ∈ rc.2 →
      rc.1.getD 1 "" = get_file_path o s.source_file_id := by
  intro s hs rc hrc hid
  rcases rowCoverage_shape o _ rc hrc with
    ⟨gr, si, hlk, hsi, hrceq⟩ | ⟨p, hp, hpne, hrceq⟩
  · -- an on-demand row: the path is re-resolved from the member's own path id
    cases hod : (group_snapshots o gb inv).lookup "on_demand" with
    | none =>
      rw [css_lookup_od_none cap capB _ hod] at hlk
      exact absurd hlk (by simp)
    | some g0 =>
      rw [css_lookup_od_some cap capB _ g0 hod] at hlk
      have hgr : gr = { g0 with snapshots := calcOdSnaps cap g0.snapshots } :=
        Option.some.inj hlk.symm
      rw [hgr] at hsi
      have hsi2 : si ∈ calcOdSnaps cap g0.snapshots := hsi
      rw [calcOdSnaps_eq_map] at hsi2
      rcases List.mem_map.mp hsi2 with ⟨si0, hsi0, hupd⟩
      have hg0mem : ("on_demand", g0) ∈ group_snapshots o gb inv :=
        mem_of_lookup_eq_some _ _ _ hod
      rw [group_snapshots_eq] at hg0mem
      have hsnap := spec_snapshots o gb inv _ _ hg0mem
      rw [hsnap] at hsi0
      rcases List.mem_map.mp hsi0 with ⟨t, htf, hinfo⟩
      rcases List.mem_filter.mp htf with ⟨htinv, _⟩
      have hsiid : si.id = t.id := by
        rw [← hupd, ← hinfo]
        cases cap (snapInfoOf o t).id <;> rfl
      rw [hrceq] at hid
      simp only [List.mem_singleton] at hid
      have hts : t = s := by
        apply List.inj_on_of_nodup_map hids htinv hs
        rw [← hsiid, ← hid]
      rw [hrceq]
      show (odRowFor o si).getD 1 "" = _
      have hfield : (odRowFor o si).getD 1 "" = get_file_path o si.path_id := rfl
      have hpid : si.path_id = t.source_file_id := by
        rw [← hupd, ← hinfo]
        cases cap (snapInfoOf o t).id <;> rfl
      rw [hfield, hpid, hts]
  · -- a group summary row: the path is the group's stored display path
    rcases css_mem_src cap capB _ p.1 p.2 hp with ⟨hpod, _⟩ | ⟨g0, n, hg0, _, hgr⟩
    · exact absurd hpod hpne
    · rw [group_snapshots_eq] at hg0
      have hsnap0 := spec_snapshots o gb inv _ _ hg0
      rw [hrceq] at hid
      have hid2 : s.id ∈ p.2.snapshots.map SnapInfo.id := hid
      have hsnp : p.2.snapshots = g0.snapshots := by rw [hgr]
      rw [hsnp, hsnap0] at hid2
      rcases List.mem_map.mp hid2 with ⟨si0, hsi0, hsid⟩
      rcases List.mem_map.mp hsi0 with ⟨t, htf, hinfo⟩
      rcases List.mem_filter.mp htf with ⟨htinv, htk⟩
      have htid : t.id = s.id := by
        rw [← hsid, ← hinfo]
        rfl
      have hts : t = s := List.inj_on_of_nodup_map hids htinv hs htid
      have hsk : codeGroupKey gb s = p.1 := by
        rw [← hts]
        exact beq_iff_eq.mp htk
      rw [hrceq]
      show (rowFor p.1 p.2).getD 1 "" = _
      have h1 : (rowFor p.1 p.2).getD 1 "" = p.2.path_str := rfl
      have h2 : p.2.path_str = g0.path_str := by rw [hgr]
      rcases spec_entry o gb inv p.1 g0 hg0 with ⟨t0, hhead0, hkey0, hgdef⟩
      have hpath0 : g0.path_str = get_file_path o t0.source_file_id := by
        rw [hgdef]
        show (newGroup o gb t0).path_str = _
        simp only [newGroup]
        rw [if_pos]
        rw [hkey0]
        exact hpne
      have ht0 : t0 ∈ inv ∧ codeGroupKey gb t0 = p.1 := by
        cases hL : inv.filter (fun u => codeGroupKey gb u == p.1) with
        | nil => rw [hL] at hhead0; simp at hhead0
        | cons a t2 =>
          rw [hL] at hhead0
          simp only [List.head?_cons, Option.some.injEq] at hhead0
          have hmem : t0 ∈ inv.filter (fun u => codeGroupKey gb u == p.1) := by
            rw [hL, ← hhead0]
            exact List.mem_cons_self _ _
          rcases List.mem_filter.mp hmem with ⟨h5, h6⟩
          exact ⟨h5, beq_iff_eq.mp h6⟩
      have hsfid : s.source_file_id = t0.source_file_id :=
        hsh s hs t0 ht0.1 (by rw [hsk, ht0.2]) (by rw [hsk]; exact hpne)
      rw [h1, h2, hpath0, hsfid]

theorem coverage_exists (o : PathOracle) (cap : SnapCapOracle) (capB : BulkCapOracle)
    (gb : GroupBy) (inv : List RawSnapshot)
    (hcap : ∀ ids, ∃ n, capB ids = ApiResult.ok n) :
    ∀ s ∈ inv, ∃ rc ∈ rowCoverage o (calculate_snapshot_sizes cap capB
        (group_snapshots o gb inv)), s.id ∈ rc.2 := by
  intro s hs
  have hex := spec_exists_group o gb inv s hs
  rw [← group_snapshots_eq] at hex
  rcases hex with ⟨g0, hg0, hmem0⟩
  have hndk : ((group_snapshots o gb inv).map Prod.fst).Nodup := by
    rw [group_snapshots_eq]
    exact spec_keys_nodup o gb inv
  by_cases hk : codeGroupKey gb s = "on_demand"
  · have hlkG : (group_snapshots o gb inv).lookup "on_demand" = some g0 := by
      rw [← hk]
      exact lookup_of_mem_nodup _ _ _ hndk (by rw [hk] at hg0 ⊢; exact hg0)
    have hR := css_lookup_od_some cap capB _ g0 hlkG
    obtain ⟨si, hsimem, hsid⟩ : ∃ si,
        si ∈ ({ g0 with snapshots := calcOdSnaps cap g0.snapshots } :
          SnapPolicyInfo).snapshots ∧ si.id = s.id := by
      refine ⟨match cap (snapInfoOf o s).id with
        | .ok n => { snapInfoOf o s with size := n }
        | .err _ => snapInfoOf o s, ?_, ?_⟩
      · show _ ∈ calcOdSnaps cap g0.snapshots
        rw [calcOdSnaps_eq_map]
        exact List.mem_map_of_mem _ hmem0
      · cases cap (snapInfoOf o s).id <;> rfl
    exact ⟨(odRowFor o si, [si.id]), mem_rowCoverage_od o _ _ si hR hsimem,
      by simp [hsid]⟩
  · rcases hcap (g0.snapshots.map SnapInfo.id) with ⟨n, hcapn⟩
    have hR := css_lookup_ne_od cap capB _ (codeGroupKey gb s) g0 hndk hg0 hk
    rw [hcapn] at hR
    have hR2 : (calculate_snapshot_sizes cap capB
        (group_snapshots o gb inv)).lookup (codeGroupKey gb s) =
        some { g0 with size := n } := hR
    have hmemR := mem_of_lookup_eq_some _ _ _ hR2
    refine ⟨(rowFor (codeGroupKey gb s) { g0 with size := n },
      ({ g0 with size := n } : SnapPolicyInfo).snapshots.map SnapInfo.id),
      mem_rowCoverage_group o _ _ _ hmemR hk, ?_⟩
    show s.id ∈ ({ g0 with size := n } : SnapPolicyInfo).snapshots.map SnapInfo.id
    have : ({ g0 with size := n } : SnapPolicyInfo).snapshots = g0.snapshots := rfl
    rw [this]
    exact List.mem_map.mpr ⟨snapInfoOf o s, hmem0, rfl⟩

/-! ## The `format_bytes` loop: closed form of the chosen unit index -/

theorem bitLog_spec :
    ∀ (fuel n : Nat), 1 ≤ n → n ≤ fuel →
      2 ^ bitLog fuel n ≤ n ∧ n < 2 ^ (bitLog fuel n + 1) := by
  intro fuel
  induction fuel with
  | zero => intro n h1 h2; omega
  | succ fuel ih =>
    intro n h1 h2
    by_cases hn : n ≤ 1
    · have hne : n = 1 := by omega
      simp [bitLog, hn, hne]
    · have hrec := ih (n / 2) (by omega) (by omega)
      rw [show bitLog (fuel + 1) n = bitLog fuel (n / 2) + 1 from by
        simp [bitLog, hn]]
      rcases hrec with ⟨hlo, hhi⟩
      constructor
      · calc 2 ^ (bitLog fuel (n / 2) + 1) = 2 * 2 ^ bitLog fuel (n / 2) := by ring
        _ ≤ 2 * (n / 2) := by omega
        _ ≤ n := by omega
      · calc n < 2 * (n / 2) + 2 := by omega
        _ ≤ 2 * 2 ^ (bitLog fuel (n / 2) + 1) := by omega
        _ = 2 ^ (bitLog fuel (n / 2) + 1 + 1) := by ring

theorem fbLoop_spec :
    ∀ (fuel index num den : Nat), index ≤ 6 → 7 ≤ index + fuel →
      ∃ i, index ≤ i ∧ i ≤ 6 ∧
        fbLoop fuel num den index = (num, den * 1024 ^ (i - index), i) ∧
        (∀ j, index ≤ j → j < i → den * 1024 ^ (j - index + 1) ≤ num) ∧
        (i < 6 → num < den * 1024 ^ (i - index + 1)) := by
  intro fuel
  induction fuel with
  | zero => intro index num den h6 h7; omega
  | succ fuel ih =>
    intro index num den h6 h7
    by_cases hg : 1024 * den ≤ num ∧ index < 6
    · rcases ih (index + 1) num (den * 1024) (by omega) (by omega) with
        ⟨i, hi1, hi2, hi3, hi4, hi5⟩
      refine ⟨i, by omega, hi2, ?_, ?_, ?_⟩
      · simp only [fbLoop, if_pos hg]
        rw [hi3]
        have harith : den * 1024 * 1024 ^ (i - (index + 1)) =
            den * 1024 ^ (i - index) := by
          have he : i - index = (i - (index + 1)) + 1 := by omega
          rw [he, pow_succ]
          ring
        rw [harith]
      · intro j hj1 hj2
        rcases Nat.eq_or_lt_of_le hj1 with hj | hj
        · have he : j - index + 1 = 1 := by omega
          rw [he, pow_one]
          calc den * 1024 = 1024 * den := by ring
          _ ≤ num := hg.1
        · have h4 := hi4 j (by omega) hj2
          have harith : den * 1024 * 1024 ^ (j - (index + 1) + 1) =
              den * 1024 ^ (j - index + 1) := by
            have he : j - index + 1 = (j - (index + 1) + 1) + 1 := by omega
            rw [he, pow_succ]
            ring
          rw [← harith]
          exact h4
      · intro hlt
        have h5 := hi5 hlt
        have harith : den * 1024 * 1024 ^ (i - (index + 1) + 1) =
            den * 1024 ^ (i - index + 1) := by
          have he : i - index + 1 = (i - (index + 1) + 1) + 1 := by omega
          rw [he, pow_succ]
          ring
        rw [← harith]
        exact h5
    · refine ⟨index, le_refl _, h6, ?_, ?_, ?_⟩
      · simp only [fbLoop, if_neg hg]
        rw [Nat.sub_self, pow_zero, Nat.mul_one]
      · intro j hj1 hj2
        omega
      · intro hlt
        have hn : ¬ 1024 * den ≤ num := by tauto
        have he : index - index + 1 = 1 := by omega
        rw [he, pow_one]
        omega

/-! ## The claims -/

/-- Claim C1: grouping the snapshot inventory by a key partitions it — for
every inventory and both grouping keys, the member lists of all returned
groups together are a permutation of the full list of per-snapshot records
(no duplication, no omission), and every snapshot's record lies in the
member list of exactly one group. -/
theorem C1_grouping_partition (o : PathOracle) (gb : GroupBy)
    (inv : List RawSnapshot) :
    (((group_snapshots o gb inv).map (fun p => p.2.snapshots)).flatten).Perm
      (inv.map (snapInfoOf o)) ∧
    ∀ s ∈ inv, (group_snapshots o gb inv).countP
      (fun p => decide (snapInfoOf o s ∈ p.2.snapshots)) = 1 := by
  rw [group_snapshots_eq]
  refine ⟨spec_join_perm o gb inv, ?_⟩
  intro s hs
  rcases spec_exists_group o gb inv s hs with ⟨g0, hg0, _⟩
  have hnd := spec_keys_nodup o gb inv
  have hcong : ∀ p ∈ groupsSpec o gb inv,
      ((fun p => decide (snapInfoOf o s ∈ p.2.snapshots)) p = true ↔
        ((fun (p : String × SnapPolicyInfo) => p.1 == codeGroupKey gb s) p = true)) := by
    intro p hp
    constructor
    · intro hmem
      have hkey := spec_member_key o gb inv p.1 p.2 hp (snapInfoOf o s)
        (of_decide_eq_true hmem)
      rw [keyOfInfo_info] at hkey
      simp [← hkey]
    · intro hbeq
      have hpk : p.1 = codeGroupKey gb s := beq_iff_eq.mp hbeq
      have hsnap := spec_snapshots o gb inv p.1 p.2 hp
      apply decide_eq_true
      rw [hsnap]
      apply List.mem_map_of_mem
      exact List.mem_filter.mpr ⟨hs, by simp [hpk]⟩
  rw [List.countP_congr hcong]
  have hmemk : codeGroupKey gb s ∈ (groupsSpec o gb inv).map Prod.fst :=
    List.mem_map_of_mem Prod.fst hg0
  have hc := List.count_eq_one_of_mem hnd hmemk
  rw [List.count_eq_countP, List.countP_map] at hc
  exact hc

/-- Claim C2, counterexample to the stated key rule: a snapshot whose
`policy_id` is present and non-null but empty is grouped under
`"on_demand"` (Python `or` treats the empty string as falsy), while the
claim's rule would key the group by the empty string itself. -/
theorem C2_counterexample :
    (group_snapshots (fun _ => ApiResult.ok "/p") GroupBy.policy_id
      [⟨"1", some "", some "f", "n", none⟩]).map Prod.fst = ["on_demand"] ∧
    statedGroupKey GroupBy.policy_id ⟨"1", some "", some "f", "n", none⟩ = "" ∧
    ("on_demand" : String) ≠ "" := by
  exact ⟨by decide, rfl, by decide⟩

/-- Claim C2 (amended): the group key is the snapshot's key field if
present, non-null and non-empty, and `"on_demand"` otherwise; a new
group's display path is `"N/A"` for the `"on_demand"` key and otherwise
the resolved path of the first snapshot of the group; groups appear in
first-occurrence (insertion) order and each group's member list is the
inventory-ordered records with that key. -/
theorem C2_grouping_amended (o : PathOracle) (gb : GroupBy)
    (inv : List RawSnapshot) :
    ((group_snapshots o gb inv).map Prod.fst =
      dedupFirst (inv.map (codeGroupKey gb))) ∧
    (∀ k g, (k, g) ∈ group_snapshots o gb inv →
      g.snapshots = (inv.filter (fun t => codeGroupKey gb t == k)).map (snapInfoOf o) ∧
      g.path_str = (if k = "on_demand" then "N/A"
        else (g.snapshots.head?.map SnapInfo.path_str).getD "N/A")) ∧
    (∀ s ∈ inv, ∃ g, (codeGroupKey gb s, g) ∈ group_snapshots o gb inv ∧
      snapInfoOf o s ∈ g.snapshots) ∧
    (∀ (s : RawSnapshot) (v : String), keyField gb s = some v → v ≠ "" →
      codeGroupKey gb s = v) ∧
    (∀ s : RawSnapshot, keyField gb s = none ∨ keyField gb s = some "" →
      codeGroupKey gb s = "on_demand") := by
  simp only [group_snapshots_eq]
  refine ⟨spec_keys o gb inv,
    fun k g h => ⟨spec_snapshots o gb inv k g h, spec_path o gb inv k g h⟩,
    spec_exists_group o gb inv, ?_, ?_⟩
  · intro s v hv hne
    simp [codeGroupKey, hv, hne]
  · intro s hs
    rcases hs with hs | hs <;> simp [codeGroupKey, hs]

/-- Claim C3: for a non-on-demand group, the expiration field of its
report row (the sixth entry) is the string-minimum of the members'
expiration strings that differ from `"N/A"`, truncated to the part
before the first `'T'`; when no member's expiration differs from
`"N/A"`, the field is `"N/A"`. -/
theorem C3_earliest_expiration (o : PathOracle)
    (results : List (String × SnapPolicyInfo)) (k : String) (g : SnapPolicyInfo)
    (hmem : (k, g) ∈ results) (hk : k ≠ "on_demand") :
    ∃ row ∈ prepare_rows o results, row = rowFor k g ∧
      ((g.snapshots.map SnapInfo.expiration).filter (fun e => !(e == "N/A")) = [] →
        row.getD 5 "" = "N/A") ∧
      ((g.snapshots.map SnapInfo.expiration).filter (fun e => !(e == "N/A")) ≠ [] →
        ∃ m ∈ (g.snapshots.map SnapInfo.expiration).filter (fun e => !(e == "N/A")),
          (∀ e ∈ (g.snapshots.map SnapInfo.expiration).filter (fun e => !(e == "N/A")),
            strLtB e m = false) ∧
          row.getD 5 "" = beforeT m) := by
  refine ⟨rowFor k g, mem_prepare_rows_group o results k g hmem hk, rfl, ?_, ?_⟩
  · intro hnil
    show beforeT (earliest_expiration g.snapshots) = "N/A"
    rw [earliest_expiration, hnil]
    rfl
  · intro hne
    refine ⟨earliest_expiration g.snapshots, ?_, ?_, rfl⟩
    · rw [earliest_expiration]
      exact pyMinList_mem _ _ hne
    · intro e he
      rw [earliest_expiration]
      exact pyMinList_not_lt _ _ e he

/-- Witness for C3 at a concrete group whose only member has expiration
`"N/A"`: the produced row's expiration field is `"N/A"`. -/
theorem C3_witness :
    ∃ row ∈ prepare_rows (fun _ => ApiResult.ok "/w")
      [("p", ⟨some "p", "p", none, "/w",
        [⟨"1", "a", "N/A", some "p", some "f", "/w", 0⟩], 0⟩)],
      row.getD 5 "" = "N/A" := by
  rcases C3_earliest_expiration (fun _ => ApiResult.ok "/w")
      [("p", ⟨some "p", "p", none, "/w",
        [⟨"1", "a", "N/A", some "p", some "f", "/w", 0⟩], 0⟩)]
      "p" _ (List.mem_cons_self _ _) (by decide) with
    ⟨row, hrow, _, hnil, _⟩
  exact ⟨row, hrow, hnil (by decide)⟩

/-- Claim C4: `format_bytes` divides its argument by 1024 while the
value is at least 1024 and a larger unit remains, and renders one
decimal of the final value followed by the chosen unit.  The division
is CPython float division: the first quotient is the correctly rounded
binary64 value `floatDiv1024` describes (exactly `n / 1024` for
arguments below 2^53), and every later division is exact, so the exit
index is the least one at which that rounded value drops below 1024,
capped at the last unit.  In particular 1024 renders as `"1.0KiB"`,
0 as `"0.0B"`, 1536 as `"1.5KiB"`, and — through the rounding-up of
the first quotient — `2^60 - 1` as `"1.0EiB"`.  The characterization
is stated for arguments below 2^1033: from about 2^1034 the program's
first division overflows the double range and raises, producing no
string at all. -/
theorem C4_format_bytes :
    (∀ n : Nat, n < 1024 →
      format_bytes n = renderFixed1 n 1 ++ units.getD 0 "") ∧
    (∀ n : Nat, 1024 ≤ n → n < 2 ^ 1033 → ∃ i, 1 ≤ i ∧ i ≤ 6 ∧
      (∀ j, 1 ≤ j → j < i →
        (floatDiv1024 n).2 * 1024 ^ j ≤ (floatDiv1024 n).1) ∧
      (i < 6 → (floatDiv1024 n).1 < (floatDiv1024 n).2 * 1024 ^ i) ∧
      format_bytes n =
        renderFixed1 (floatDiv1024 n).1 ((floatDiv1024 n).2 * 1024 ^ (i - 1)) ++
          units.getD i "") ∧
    (∀ n : Nat, 1024 ≤ n → n < 2 ^ 53 → floatDiv1024 n = (n, 1024)) ∧
    format_bytes 1024 = "1.0KiB" ∧ format_bytes 0 = "0.0B" ∧
    format_bytes 1536 = "1.5KiB" ∧ format_bytes (2 ^ 60 - 1) = "1.0EiB" := by
  refine ⟨?_, ?_, ?_, by decide, by decide, by decide, by decide⟩
  · intro n hn
    rw [format_bytes, if_neg (by omega)]
  · intro n hn _
    rcases hfd : floatDiv1024 n with ⟨num, den⟩
    rcases fbLoop_spec 6 1 num den (by omega) (by omega) with
      ⟨i, hi1, hi6, hloop, hlow, hhigh⟩
    refine ⟨i, hi1, hi6, ?_, ?_, ?_⟩
    · intro j hj1 hj2
      have hj := hlow j hj1 hj2
      have he : j - 1 + 1 = j := by omega
      rw [he] at hj
      exact hj
    · intro hlt
      have hi := hhigh hlt
      have he : i - 1 + 1 = i := by omega
      rw [he] at hi
      exact hi
    · have hfb : format_bytes n =
          (match fbLoop 6 num den 1 with
           | (num2, den2, index) => renderFixed1 num2 den2 ++ units.getD index "") := by
        rw [format_bytes, if_pos hn, hfd]
      rw [hfb, hloop]
  · intro n hn hsmall
    have hb := bitLog_spec n n (by omega) (le_refl n)
    have hb52 : bitLog n n ≤ 52 := by
      by_contra hgt
      have h53 : 2 ^ 53 ≤ 2 ^ bitLog n n := Nat.pow_le_pow_right (by omega) (by omega)
      omega
    simp [floatDiv1024, hb52]

/-- Claim C5: for a non-on-demand group, a single bulk capacity request
over the group's full id list sets the group's aggregate size; on a
fault the group is absent from the results map and yields no report row,
while every other group is processed unaffected. -/
theorem C5_bulk_capacity (o : PathOracle) (capB : BulkCapOracle)
    (groups results0 : List (String × SnapPolicyInfo)) (k : String)
    (g : SnapPolicyInfo) (hnd : (groups.map Prod.fst).Nodup)
    (hmem : (k, g) ∈ groups) (hk : k ≠ "on_demand")
    (h0 : k ∉ results0.map Prod.fst) :
    (∀ n, capB (g.snapshots.map SnapInfo.id) = .ok n →
      (k, { g with size := n }) ∈ calculate_size_by_policy capB groups results0) ∧
    (∀ e, capB (g.snapshots.map SnapInfo.id) = .err e →
      (∀ g2, (k, g2) ∉ calculate_size_by_policy capB groups results0) ∧
      ∀ row ∈ prepare_rows o (calculate_size_by_policy capB groups results0),
        row.head? ≠ some k) ∧
    (∀ k2 g2 n2, (k2, g2) ∈ groups → k2 ≠ "on_demand" → k2 ≠ k →
      capB (g2.snapshots.map SnapInfo.id) = .ok n2 →
      (k2, { g2 with size := n2 }) ∈ calculate_size_by_policy capB groups results0) := by
  have hlk := csbp_lookup_mem capB groups results0 k g hnd hmem hk
  refine ⟨?_, ?_, ?_⟩
  · intro n hcap
    rw [hcap] at hlk
    exact mem_of_lookup_eq_some _ _ _ hlk
  · intro e hcap
    rw [hcap] at hlk
    rw [lookup_eq_none_of_not_mem results0 k h0] at hlk
    have habs : ∀ g2, (k, g2) ∉ calculate_size_by_policy capB groups results0 := by
      intro g2 hg2
      exact lookup_ne_none_of_mem _ _ _ hg2 hlk
    exact ⟨habs, prepare_rows_head_ne o _ k hk habs⟩
  · intro k2 g2 n2 hmem2 hk2 _ hcap2
    have hlk2 := csbp_lookup_mem capB groups results0 k2 g2 hnd hmem2 hk2
    rw [hcap2] at hlk2
    exact mem_of_lookup_eq_some _ _ _ hlk2

/-- Witness for C5 at a concrete one-group map whose bulk call returns
2048: the sized group is stored in the results map. -/
theorem C5_witness :
    ("p", (⟨some "p", "p", none, "/x",
      [⟨"1", "n", "", some "p", some "f", "/x", 0⟩], 2048⟩ : SnapPolicyInfo)) ∈
      calculate_size_by_policy (fun _ => ApiResult.ok 2048)
        [("p", ⟨some "p", "p", none, "/x",
          [⟨"1", "n", "", some "p", some "f", "/x", 0⟩], 0⟩)] [] :=
  (C5_bulk_capacity (fun _ => ApiResult.ok "") (fun _ => ApiResult.ok 2048)
    [("p", ⟨some "p", "p", none, "/x",
      [⟨"1", "n", "", some "p", some "f", "/x", 0⟩], 0⟩)] [] "p" _
    (by decide) (List.mem_cons_self _ _) (by decide) (by simp)).1 2048 rfl

/-- Claim C6: during on-demand capacity calculation every member whose
per-snapshot lookup faults (a "not found" fault or any other) keeps its
default size 0, the calculation still stores the group, and members
whose lookup succeeds get the returned byte figure as their size. -/
theorem C6_on_demand_sizes (cap : SnapCapOracle) (g : SnapPolicyInfo)
    (results : List (String × SnapPolicyInfo)) (i : Nat) (si : SnapInfo)
    (hget : g.snapshots[i]? = some si) (hsz : si.size = 0) :
    ∃ gr, (calculate_size_on_demand cap g results).lookup "on_demand" = some gr ∧
      (∀ e, cap si.id = .err e → ∃ si2, gr.snapshots[i]? = some si2 ∧ si2.size = 0) ∧
      (∀ n, cap si.id = .ok n → gr.snapshots[i]? = some { si with size := n }) := by
  refine ⟨{ g with snapshots := calcOdSnaps cap g.snapshots },
    lookup_upsert_self results "on_demand" _, ?_, ?_⟩
  · intro e hcap
    refine ⟨si, ?_, hsz⟩
    show (calcOdSnaps cap g.snapshots)[i]? = some si
    rw [calcOdSnaps_eq_map, List.getElem?_map, hget]
    simp [hcap]
  · intro n hcap
    show (calcOdSnaps cap g.snapshots)[i]? = some { si with size := n }
    rw [calcOdSnaps_eq_map, List.getElem?_map, hget]
    simp [hcap]

/-- Witness for C6 at a concrete on-demand group whose only member's
lookup faults with a "not found" error: its size stays 0. -/
theorem C6_witness :
    ∃ gr, (calculate_size_on_demand (fun _ => ApiResult.err "snapshot_not_found_error")
        (⟨none, "on_demand", none, "N/A",
          [⟨"2", "n", "", none, some "f", "/x", 0⟩], 0⟩ : SnapPolicyInfo)
        []).lookup "on_demand" = some gr ∧
      ∃ si2, gr.snapshots[0]? = some si2 ∧ si2.size = 0 := by
  rcases C6_on_demand_sizes (fun _ => ApiResult.err "snapshot_not_found_error")
      (⟨none, "on_demand", none, "N/A",
        [⟨"2", "n", "", none, some "f", "/x", 0⟩], 0⟩ : SnapPolicyInfo)
      [] 0 ⟨"2", "n", "", none, some "f", "/x", 0⟩ rfl rfl with
    ⟨gr, hgr, herr, _⟩
  exact ⟨gr, hgr, herr "snapshot_not_found_error" rfl⟩

/-- Claim C7: resolving a snapshot's display path never aborts: a
successful call yields the collaborator's path, a fault whose message
mentions the missing-inode kind yields `"Path not found"`, and any other
fault yields `"Unknown error"`. -/
theorem C7_path_resolution (fa : PathOracle) (pid : Option String) :
    (∀ p, fa pid = .ok p → get_file_path fa pid = p) ∧
    (∀ e, fa pid = .err e →
      (containsSub "fs_no_such_inode_error" e = true →
        get_file_path fa pid = "Path not found") ∧
      (containsSub "fs_no_such_inode_error" e = false →
        get_file_path fa pid = "Unknown error")) := by
  constructor
  · intro p h
    rw [get_file_path, h]
  · intro e h
    constructor <;> intro hsub <;> rw [get_file_path, h] <;> simp [hsub]

/-- Claim C8, counterexample: two snapshots sharing policy `"p"` but
with different source paths. Under `policy_id` grouping the single group
row reports the first member's path `"/a"` for snapshot `"2"`, while
under `source_file_id` grouping snapshot `"2"`'s row reports `"/b"`. -/
theorem C8_counterexample :
    pathsReportedFor (reportRows
      (fun pid => match pid with
        | some "f1" => ApiResult.ok "/a"
        | some "f2" => ApiResult.ok "/b"
        | _ => ApiResult.ok "/x")
      (fun _ => ApiResult.ok 0) (fun _ => ApiResult.ok 0) GroupBy.policy_id
      [⟨"1", some "p", some "f1", "n1", none⟩,
       ⟨"2", some "p", some "f2", "n2", none⟩]) "2" = ["/a"] ∧
    pathsReportedFor (reportRows
      (fun pid => match pid with
        | some "f1" => ApiResult.ok "/a"
        | some "f2" => ApiResult.ok "/b"
        | _ => ApiResult.ok "/x")
      (fun _ => ApiResult.ok 0) (fun _ => ApiResult.ok 0) GroupBy.source_file_id
      [⟨"1", some "p", some "f1", "n1", none⟩,
       ⟨"2", some "p", some "f2", "n2", none⟩]) "2" = ["/b"] ∧
    (["/a"] : List String) ≠ ["/b"] := by
  exact ⟨by decide, by decide, by decide⟩

/-- Claim C8 (amended): when every pair of snapshots sharing a
non-on-demand policy group also shares its source path identifier, the
bulk capacity calls succeed, and snapshot ids are unique, then each
snapshot is reported by a row under both groupings and every row
reporting it shows the same resolved path — the resolution of the
snapshot's own source path. -/
theorem C8_paths_amended (o : PathOracle) (cap : SnapCapOracle) (capB : BulkCapOracle)
    (inv : List RawSnapshot)
    (hids : (inv.map RawSnapshot.id).Nodup)
    (hshare : ∀ s ∈ inv, ∀ t ∈ inv,
      codeGroupKey GroupBy.policy_id s = codeGroupKey GroupBy.policy_id t →
      codeGroupKey GroupBy.policy_id s ≠ "on_demand" →
      s.source_file_id = t.source_file_id)
    (hcap : ∀ ids, ∃ n, capB ids = ApiResult.ok n) :
    ∀ s ∈ inv,
      (∃ rc ∈ rowCoverage o (calculate_snapshot_sizes cap capB
        (group_snapshots o GroupBy.policy_id inv)), s.id ∈ rc.2) ∧
      (∃ rc ∈ rowCoverage o (calculate_snapshot_sizes cap capB
        (group_snapshots o GroupBy.source_file_id inv)), s.id ∈ rc.2) ∧
      ∀ rc1 ∈ rowCoverage o (calculate_snapshot_sizes cap capB
        (group_snapshots o GroupBy.policy_id inv)),
      ∀ rc2 ∈ rowCoverage o (calculate_snapshot_sizes cap capB
        (group_snapshots o GroupBy.source_file_id inv)),
        s.id ∈ rc1.2 → s.id ∈ rc2.2 →
        rc1.1.getD 1 "" = get_file_path o s.source_file_id ∧
        rc2.1.getD 1 "" = rc1.1.getD 1 "" := by
  intro s hs
  have hsfidsh : ∀ s2 ∈ inv, ∀ t ∈ inv,
      codeGroupKey GroupBy.source_file_id s2 = codeGroupKey GroupBy.source_file_id t →
      codeGroupKey GroupBy.source_file_id s2 ≠ "on_demand" →
      s2.source_file_id = t.source_file_id := by
    intro s2 _ t _ heq hne
    exact sfid_share s2 t (codeGroupKey GroupBy.source_file_id s2) rfl heq.symm hne
  refine ⟨coverage_exists o cap capB GroupBy.policy_id inv hcap s hs,
    coverage_exists o cap capB GroupBy.source_file_id inv hcap s hs, ?_⟩
  intro rc1 hrc1 rc2 hrc2 h1 h2
  have hp1 := coverage_path o cap capB GroupBy.policy_id inv hids hshare s hs rc1 hrc1 h1
  have hp2 := coverage_path o cap capB GroupBy.source_file_id inv hids hsfidsh s hs rc2 hrc2 h2
  exact ⟨hp1, by rw [hp1, hp2]⟩

/-- Witness for C8 at a two-snapshot inventory sharing policy and source
path: the policy-grouped report has a row covering snapshot `"1"`. -/
theorem C8_witness :
    ∃ rc ∈ rowCoverage (fun _ => ApiResult.ok "/a")
      (calculate_snapshot_sizes (fun _ => ApiResult.ok 0) (fun _ => ApiResult.ok 0)
        (group_snapshots (fun _ => ApiResult.ok "/a") GroupBy.policy_id
          [⟨"1", some "p", some "f", "n1", none⟩,
           ⟨"2", some "p", some "f", "n2", none⟩])),
      ("1" : String) ∈ rc.2 :=
  (C8_paths_amended (fun _ => ApiResult.ok "/a") (fun _ => ApiResult.ok 0)
    (fun _ => ApiResult.ok 0)
    [⟨"1", some "p", some "f", "n1", none⟩, ⟨"2", some "p", some "f", "n2", none⟩]
    (by decide) (by decide) (fun ids => ⟨0, rfl⟩)
    ⟨"1", some "p", some "f", "n1", none⟩ (List.mem_cons_self _ _)).1

/-- Claim C9: every report row has exactly 6 fields regardless of the
grouping key, while the header for `source_file_id` grouping names only
5 columns (the `policy_id` header names 6), so every path-keyed row
carries one more data field than its header names. -/
theorem C9_row_width_vs_headers :
    (∀ (o : PathOracle) (results : List (String × SnapPolicyInfo)),
      ∀ row ∈ prepare_rows o results, row.length = 6) ∧
    (get_headers GroupBy.source_file_id).length = 5 ∧
    (get_headers GroupBy.policy_id).length = 6 :=
  ⟨fun o results => prepare_rows_length o results, rfl, rfl⟩

/-- Claim C10: every group returned by `group_snapshots` has a non-empty
member list — a group is created holding its first record and records
are only ever appended. -/
theorem C10_groups_nonempty (o : PathOracle) (gb : GroupBy)
    (inv : List RawSnapshot) (k : String) (g : SnapPolicyInfo)
    (h : (k, g) ∈ group_snapshots o gb inv) : g.snapshots ≠ [] := by
  rw [group_snapshots_eq] at h
  rcases spec_entry o gb inv k g h with ⟨s, _, _, hg⟩
  rw [hg]
  simp [addSnaps, newGroup]

/-- Witness for C10: the concrete group produced for a one-snapshot
inventory has a non-empty member list. -/
theorem C10_witness :
    ((⟨some "p", "p", none, "/x",
      [⟨"1", "n", "", some "p", some "f", "/x", 0⟩], 0⟩ : SnapPolicyInfo)).snapshots ≠ [] :=
  C10_groups_nonempty (fun _ => ApiResult.ok "/x") GroupBy.policy_id
    [⟨"1", some "p", some "f", "n", none⟩] "p" _ (by decide)

end QumuloSnap
